import Mathlib

/-!
# approx-image-gen: batch scheduler (`web/worker.js`) and render synchronizer (`web/main.js`)

A shallow embedding of the two JavaScript files.

## Worker

* The approximation engine (`WasmAlgorithm`, generated from the Rust crate) is external to the
  two files; it is taken as a parameter `Engine σ`: an arbitrary state type with the operations
  the scheduler calls.  `step` may throw; the getters and `is_finished` only read the state.
* `runLoop` is an `async` function that suspends once per batch (`await` on a zero-delay
  timer).  The environment of a run is a list of `Tick`s, one per executed batch: the value
  returned by `performance.now()` in that batch and whether a `stop` message is handled while
  the loop is suspended after it.  A run that uses up the ticks it was given is `suspended`.
  A second `start` message during a run is outside the model.
* The canvas calls between `step` and `postMessage` (`ImageData`, `putImageData`,
  `transferToImageBitmap`) are taken to succeed; the bitmap records the buffer and the sizes.
* Every `postMessage` is logged in `outbox` together with the clock reading of its batch and
  the engine state at the call; every `step` call is logged in `stepLog`.

## Page

* The page state holds the module variables of `main.js`, the few document properties it
  writes, the queue of requested refresh callbacks, and a log of the calls on the output
  canvas, on bitmaps and on the worker.  Bitmaps are object references.
* The handlers of worker messages are compositions of the functions modelled here:
  `progress` is `updateProgress`, `finished` is `updateProgress` then `stopAlgorithm`,
  `error` is `stopAlgorithm`.

Numbers are exact: clock readings, accuracies and ratios are rationals, counters are naturals
(the division of the progress bar is only used with a positive divisor).
-/

namespace ApproxImageGen

/-! ## The engine contract -/

/-- The capabilities of `WasmAlgorithm` used by the worker.  `step` mutates the engine and
returns the pixel buffer, or throws. -/
structure Engine (σ : Type) where
  construct : List Nat → Nat → Nat → Nat → ℚ → Nat → σ
  step : σ → Nat → Except String (σ × List Nat)
  is_finished : σ → Bool
  get_iteration : σ → Nat
  get_accuracy : σ → ℚ
  get_width : σ → Nat
  get_height : σ → Nat

/-! ## Messages -/

/-- An `ImageBitmap` produced by `offscreen.transferToImageBitmap()` after `putImageData`. -/
structure ImageBitmap where
  pixels : List Nat
  width : Nat
  height : Nat
deriving DecidableEq, Repr

/-- The `data` object of a `progress` / `finished` message. -/
structure Payload where
  iteration : Nat
  accuracy : ℚ
  bitmap : ImageBitmap
  maxIterations : Nat
  targetAccuracy : ℚ
deriving DecidableEq, Repr

/-- The `type` field of a message posted by the worker. -/
inductive Kind where
  | ready
  | progress
  | finished
  | error
deriving DecidableEq, Repr

/-- A message posted by the worker: `{ type, data }`. -/
inductive Message where
  | ready
  | progress (data : Payload)
  | finished (data : Payload)
  | error (data : String)
deriving DecidableEq, Repr

/-- The `type` of a message. -/
def Message.kind : Message → Kind
  | Message.ready => Kind.ready
  | Message.progress _ => Kind.progress
  | Message.finished _ => Kind.finished
  | Message.error _ => Kind.error

/-- The `data.iteration` of a message, when it has one. -/
def Message.iteration? : Message → Option Nat
  | Message.progress d => some d.iteration
  | Message.finished d => some d.iteration
  | _ => none

/-- The `data` of a `start` message. -/
structure StartData where
  pixels : List Nat
  width : Nat
  height : Nat
  maxIterations : Nat
  targetAccuracy : ℚ
  batchSize : Nat
  algorithm : Option Nat

/-- A message received by the worker. -/
inductive Control where
  | start (data : StartData)
  | stop

/-! ## Worker state -/

/-- One `self.postMessage` call of `runLoop`, with two annotations: `clock` is the
`performance.now()` reading of the batch that posted it (`none` for the emission after the
loop, which reads no clock) and `engine` is the engine state at the call. -/
structure Sent (σ : Type) where
  msg : Message
  clock : Option ℚ
  engine : σ

/-- The module-level variables of `worker.js`, the messages posted so far (`outbox`) and the
arguments of the `step` calls made so far (`stepLog`). -/
structure Worker (σ : Type) where
  algorithm : Option σ
  running : Bool
  batchSize : Nat
  maxIterations : Nat
  targetAccuracy : ℚ
  offscreen : Option (Nat × Nat)
  lastUpdateTime : ℚ
  outbox : List (Sent σ)
  stepLog : List Nat

/-- Throttle updates (ms). -/
def UPDATE_INTERVAL : ℚ := 50

/-- The module state when the worker script has been loaded. -/
def Worker.initial (σ : Type) : Worker σ :=
  { algorithm := none, running := false, batchSize := 10, maxIterations := 50000,
    targetAccuracy := 9 / 10, offscreen := none, lastUpdateTime := 0,
    outbox := [], stepLog := [] }

/-- What the environment does around one batch. -/
structure Tick where
  now : ℚ
  stop : Bool

/-- How a run of `runLoop` stands: `suspended` at the loop head with no tick left, `completed`
(the promise resolved), or `rejected` (an exception escaped; `runLoop` has no handler). -/
inductive Status where
  | suspended
  | completed
  | rejected (message : String)
deriving DecidableEq, Repr

/-- `self.onmessage` without the call of `runLoop` that ends the `start` case. -/
def onmessage {σ : Type} (E : Engine σ) (m : Control) (w : Worker σ) : Worker σ :=
  match m with
  | Control.start data =>
    let algorithmType := match data.algorithm with
      | some k => if k = 0 then 0 else k
      | none => 0
    { w with
      maxIterations := data.maxIterations
      targetAccuracy := data.targetAccuracy
      batchSize := data.batchSize
      offscreen := some (data.width, data.height)
      algorithm := some (E.construct data.pixels data.width data.height
        data.maxIterations data.targetAccuracy algorithmType)
      running := true
      lastUpdateTime := 0 }
  | Control.stop => { w with running := false }

/-- The body of the `while` loop of `runLoop` up to the `await`: one batch on engine state `a`
with clock reading `now`. -/
def runLoopBatch {σ : Type} (E : Engine σ) (now : ℚ) (a : σ) (w : Worker σ) :
    Except String (Worker σ) :=
  match E.step a w.batchSize with
  | Except.error e => Except.error e
  | Except.ok (a1, pixels) =>
    let iteration := E.get_iteration a1
    let accuracy := E.get_accuracy a1
    let width := E.get_width a1
    let height := E.get_height a1
    let shouldUpdate : Bool := decide (now - w.lastUpdateTime ≥ UPDATE_INTERVAL)
    let w1 := { w with algorithm := some a1, stepLog := w.stepLog ++ [w.batchSize] }
    if shouldUpdate || E.is_finished a1 then
      let bitmap : ImageBitmap := { pixels := pixels, width := width, height := height }
      let data : Payload :=
        { iteration := iteration, accuracy := accuracy, bitmap := bitmap,
          maxIterations := w.maxIterations, targetAccuracy := w.targetAccuracy }
      let msg := if E.is_finished a1 then Message.finished data else Message.progress data
      Except.ok { w1 with
        lastUpdateTime := now
        outbox := w1.outbox ++ [{ msg := msg, clock := some now, engine := a1 }] }
    else
      Except.ok w1

/-- The statement after the `while` loop of `runLoop`. -/
def runLoopFinal {σ : Type} (E : Engine σ) (w : Worker σ) : Worker σ × Status :=
  match w.algorithm with
  | none => (w, Status.completed)
  | some a =>
    if E.is_finished a && w.running then
      match E.step a 0 with
      | Except.error e => ({ w with stepLog := w.stepLog ++ [0] }, Status.rejected e)
      | Except.ok (a1, pixels) =>
        let bitmap : ImageBitmap :=
          { pixels := pixels, width := E.get_width a1, height := E.get_height a1 }
        let data : Payload :=
          { iteration := E.get_iteration a1, accuracy := E.get_accuracy a1, bitmap := bitmap,
            maxIterations := w.maxIterations, targetAccuracy := w.targetAccuracy }
        ({ w with
            algorithm := some a1
            stepLog := w.stepLog ++ [0]
            outbox := w.outbox ++ [{ msg := Message.finished data, clock := none, engine := a1 }] },
          Status.completed)
    else (w, Status.completed)

/-- The test of the `while` loop: `running && algorithm && !algorithm.is_finished()`. -/
def loopCondition {σ : Type} (E : Engine σ) (w : Worker σ) : Option σ :=
  match w.algorithm with
  | some a => if w.running && !E.is_finished a then some a else none
  | none => none

/-- `runLoop`, entered at the loop head (at the start of a run or on resuming after the
`await`), against the ticks of the environment. -/
def runLoop {σ : Type} (E : Engine σ) : List Tick → Worker σ → Worker σ × Status
  | env, w =>
    match loopCondition E w with
    | none => runLoopFinal E w
    | some a =>
      match env with
      | [] => (w, Status.suspended)
      | t :: rest =>
        match runLoopBatch E t.now a w with
        | Except.error e => ({ w with stepLog := w.stepLog ++ [w.batchSize] }, Status.rejected e)
        | Except.ok w1 =>
          runLoop E rest (if t.stop then onmessage E Control.stop w1 else w1)

/-- A whole session: the `start` message is handled on a freshly loaded worker (which calls
`runLoop`), then the loop runs against the environment. -/
def session {σ : Type} (E : Engine σ) (data : StartData) (env : List Tick) : Worker σ × Status :=
  runLoop E env (onmessage E (Control.start data) (Worker.initial σ))

/-! ## The foreground page (`main.js`) -/

/-- A reference to an `ImageBitmap` object received from the worker; two references are equal
exactly when they denote the same object. -/
abbrev BitmapRef := Nat

/-- The `imageData` extracted from the uploaded picture. -/
structure Image where
  width : Nat
  height : Nat
  data : List Nat
deriving DecidableEq, Repr

/-- The `data` of a `progress` / `finished` message as `updateProgress` destructures it.  The
numbers are JavaScript numbers, taken as exact rationals; `bitmap` may be missing. -/
structure ProgressData where
  iteration : ℚ
  accuracy : ℚ
  bitmap : Option BitmapRef
  maxIterations : ℚ
  targetAccuracy : ℚ

/-- The calls the page makes on the approximation canvas, on bitmaps and on its worker. -/
inductive Effect where
  | fillRect (width height : Nat)
  | drawImage (bitmap : BitmapRef)
  | close (bitmap : BitmapRef)
  | terminate (worker : Nat)
deriving DecidableEq, Repr

/-- The module-level variables of `main.js`, the parts of the document it writes, the refresh
callbacks requested from the browser and not yet run or cancelled (`frameRequests`), the
counters from which the browser draws request ids and worker handles, and the calls made so
far (`log`). -/
structure Page where
  worker : Option Nat
  imageData : Option Image
  isRunning : Bool
  animationFrameId : Option Nat
  pendingBitmap : Option BitmapRef
  startBtnDisabled : Bool
  stopBtnDisabled : Bool
  statusText : String
  iterationShown : ℚ
  accuracyShown : ℚ
  progressWidth : ℚ
  frameRequests : List Nat
  frameCounter : Nat
  workerCounter : Nat
  log : List Effect

/-- The page when the script has been loaded. -/
def Page.initial : Page :=
  { worker := none, imageData := none, isRunning := false, animationFrameId := none,
    pendingBitmap := none, startBtnDisabled := true, stopBtnDisabled := true,
    statusText := "", iterationShown := 0, accuracyShown := 0, progressWidth := 0,
    frameRequests := [], frameCounter := 0, workerCounter := 0, log := [] }

/-- The browser call `requestAnimationFrame(renderLoop)`: a fresh non-zero id is handed out
and the callback is queued. -/
def requestAnimationFrame (s : Page) : Page × Nat :=
  ({ s with frameCounter := s.frameCounter + 1,
            frameRequests := s.frameRequests ++ [s.frameCounter + 1] },
   s.frameCounter + 1)

/-- The browser call `cancelAnimationFrame(id)`. -/
def cancelAnimationFrame (id : Nat) (s : Page) : Page :=
  { s with frameRequests := s.frameRequests.filter (fun k => k ≠ id) }

/-- The `img.onload` handler of the upload control. -/
def imageOnload (img : Image) (s : Page) : Page :=
  { s with
    imageData := some img
    log := s.log ++ [Effect.fillRect img.width img.height]
    startBtnDisabled := false
    statusText := "Ready - Click Start"
    iterationShown := 0
    accuracyShown := 0
    progressWidth := 0 }

/-- Render pending bitmap on animation frame. -/
def renderLoop (s : Page) : Page :=
  let s1 : Page :=
    match s.pendingBitmap with
    | some b =>
      { s with log := s.log ++ [Effect.drawImage b, Effect.close b], pendingBitmap := none }
    | none => s
  if s1.isRunning then
    let r := requestAnimationFrame s1
    { r.1 with animationFrameId := some r.2 }
  else s1

/-- The `click` handler of the start button (the handlers it installs on the worker are
`updateProgress` and `stopAlgorithm` below). -/
def startClick (s : Page) : Page :=
  match s.imageData with
  | none => s
  | some _ =>
    let s1 : Page :=
      { s with isRunning := true, startBtnDisabled := true, stopBtnDisabled := false,
               statusText := "Running..." }
    let r := requestAnimationFrame s1
    { r.1 with animationFrameId := some r.2,
               worker := some (s.workerCounter + 1),
               workerCounter := s.workerCounter + 1 }

/-- The function `stopAlgorithm`. -/
def stopAlgorithm (s : Page) : Page :=
  let s1 : Page :=
    { s with isRunning := false, startBtnDisabled := s.imageData.isNone,
             stopBtnDisabled := true }
  let s2 : Page :=
    match s1.animationFrameId with
    | some id =>
      if id ≠ 0 then { cancelAnimationFrame id s1 with animationFrameId := none } else s1
    | none => s1
  let s3 : Page :=
    match s2.pendingBitmap with
    | some b =>
      { s2 with log := s2.log ++ [Effect.drawImage b, Effect.close b], pendingBitmap := none }
    | none => s2
  match s3.worker with
  | some k => { s3 with log := s3.log ++ [Effect.terminate k], worker := none }
  | none => s3

/-- The function `updateProgress`. -/
def updateProgress (data : ProgressData) (s : Page) : Page :=
  let iterProgress := data.iteration / data.maxIterations
  let accProgress := data.accuracy / data.targetAccuracy
  let progress := min (max iterProgress accProgress * 100) 100
  let s1 : Page :=
    { s with iterationShown := data.iteration, accuracyShown := data.accuracy * 100,
             progressWidth := progress }
  match data.bitmap with
  | some bitmap =>
    let s2 : Page :=
      match s1.pendingBitmap with
      | some old => { s1 with log := s1.log ++ [Effect.close old] }
      | none => s1
    { s2 with pendingBitmap := some bitmap }
  | none => s1

/-- The browser runs the oldest requested refresh callback, if there is one. -/
def animationFrame (s : Page) : Page :=
  match s.frameRequests with
  | [] => s
  | _ :: rest => renderLoop { s with frameRequests := rest }

/-- What can happen to the page. -/
inductive PageEvent where
  | imageLoaded (img : Image)
  | startClick
  | updateProgress (data : ProgressData)
  | animationFrame
  | stopAlgorithm

/-- The page after one event. -/
def PageEvent.apply (s : Page) : PageEvent → Page
  | PageEvent.imageLoaded img => imageOnload img s
  | PageEvent.startClick => ApproxImageGen.startClick s
  | PageEvent.updateProgress data => ApproxImageGen.updateProgress data s
  | PageEvent.animationFrame => ApproxImageGen.animationFrame s
  | PageEvent.stopAlgorithm => ApproxImageGen.stopAlgorithm s

/-- The page after a sequence of events. -/
def runPage (evs : List PageEvent) (s : Page) : Page :=
  evs.foldl PageEvent.apply s

/-- What happens to the page between start and stop of a session: messages of the worker
reach `updateProgress` and the display refreshes. -/
inductive FrameEvent where
  | updateProgress (data : ProgressData)
  | animationFrame

/-- A session event as a page event. -/
def FrameEvent.toPageEvent : FrameEvent → PageEvent
  | FrameEvent.updateProgress data => PageEvent.updateProgress data
  | FrameEvent.animationFrame => PageEvent.animationFrame

/-- The page right after the start button has been clicked with the picture `img` loaded. -/
def sessionStart (img : Image) : Page :=
  startClick (imageOnload img Page.initial)

/-- The page after the session events `evs` and the final `stopAlgorithm`. -/
def sessionEnd (img : Image) (evs : List FrameEvent) : Page :=
  stopAlgorithm (runPage (evs.map FrameEvent.toPageEvent) (sessionStart img))

/-- The bitmaps received by `updateProgress` in a sequence of events, in order. -/
def received (evs : List PageEvent) : List BitmapRef :=
  evs.filterMap (fun ev =>
    match ev with
    | PageEvent.updateProgress data => data.bitmap
    | _ => none)

/-- The bitmaps released (`close`), in order. -/
def closedOf (log : List Effect) : List BitmapRef :=
  log.filterMap (fun ef =>
    match ef with
    | Effect.close b => some b
    | _ => none)

/-- The bitmaps composited to the output surface (`drawImage`), in order. -/
def drawnOf (log : List Effect) : List BitmapRef :=
  log.filterMap (fun ef =>
    match ef with
    | Effect.drawImage b => some b
    | _ => none)

/-- The calls made when the slot content `pending` is composited and released. -/
def flushEffects (pending : Option BitmapRef) : List Effect :=
  match pending with
  | some b => [Effect.drawImage b, Effect.close b]
  | none => []

/-- The slot and the output surface agree with the bitmaps `rcv` received so far: the slot
holds the last of them, or it is empty and the last one composited is the last of them. -/
def LastShown (rcv : List BitmapRef) (s : Page) : Prop :=
  match s.pendingBitmap with
  | some b => rcv.getLast? = some b
  | none => rcv = [] ∨ (drawnOf s.log).getLast? = rcv.getLast?

/-- The refresh bookkeeping is in step: no callback is requested, or exactly one is, and it is
the one whose non-zero id is kept in `animationFrameId`. -/
def FrameSync (s : Page) : Prop :=
  s.frameRequests = [] ∨
    ∃ k, k ≠ 0 ∧ s.frameRequests = [k] ∧ s.animationFrameId = some k

/-- The progress percentage of the design: clamp(max(i / m, a / t), 0, 1) × 100. -/
def specProgress (iteration maxIterations accuracy targetAccuracy : ℚ) : ℚ :=
  max 0 (min (max (iteration / maxIterations) (accuracy / targetAccuracy)) 1) * 100

/-! ## Derived notions used to state the properties -/

section Derived

variable {σ : Type} (E : Engine σ)

/-- Whether a batch that leaves the engine in state `a1` at clock reading `now` posts. -/
def shouldEmit (now : ℚ) (a1 : σ) (w : Worker σ) : Bool :=
  decide (now - w.lastUpdateTime ≥ UPDATE_INTERVAL) || E.is_finished a1

/-- The message a batch posts when it leaves the engine in state `a1` with buffer `pixels`. -/
def batchMessage (a1 : σ) (pixels : List Nat) (w : Worker σ) : Message :=
  let data : Payload :=
    { iteration := E.get_iteration a1, accuracy := E.get_accuracy a1,
      bitmap := { pixels := pixels, width := E.get_width a1, height := E.get_height a1 },
      maxIterations := w.maxIterations, targetAccuracy := w.targetAccuracy }
  if E.is_finished a1 then Message.finished data else Message.progress data

/-- The number of `finished` messages among posted messages. -/
def finishedCount (l : List (Sent σ)) : Nat :=
  l.countP (fun e => decide (e.msg.kind = Kind.finished))

/-- The `iteration` values carried by posted messages, in posting order. -/
def iterations (l : List (Sent σ)) : List Nat :=
  l.filterMap (fun e => e.msg.iteration?)

/-- The clock reading of the most recent of the posted messages `l`, and the initial value 0 of
`lastUpdateTime` when nothing has been posted. -/
def lastEmitTime (l : List (Sent σ)) : ℚ :=
  match l.getLast? with
  | some p => p.clock.getD 0
  | none => 0

/-- The throttle, on a list of posted messages: a message that is a `progress` message, or
was posted in the loop while the engine did not report finished, carries a clock reading at
least `UPDATE_INTERVAL` after that of the message posted before it (after 0 for the first),
and at least `UPDATE_INTERVAL` after 0. -/
def Throttled (l : List (Sent σ)) : Prop :=
  ∀ pre e post, l = pre ++ e :: post →
    (e.msg.kind = Kind.progress ∨ (e.clock.isSome = true ∧ E.is_finished e.engine = false)) →
    ∃ t, e.clock = some t ∧ lastEmitTime pre + UPDATE_INTERVAL ≤ t ∧ UPDATE_INTERVAL ≤ t

/-- What holds of a worker at the loop head during a session: it has an engine, every message
posted so far was posted in the loop with the kind the engine state called for, and an engine
that reports finished has either not run a batch yet or has had its state posted last. -/
def LoopHead (w : Worker σ) : Prop :=
  (∃ a, w.algorithm = some a) ∧
  (∀ e ∈ w.outbox, e.clock.isSome = true ∧
    e.msg.kind = if E.is_finished e.engine then Kind.finished else Kind.progress) ∧
  (∀ a, w.algorithm = some a → E.is_finished a = true →
    (w.outbox = [] ∧ w.running = true) ∨
      ∃ e, w.outbox.getLast? = some e ∧ e.engine = a)

end Derived

/-! ## Concrete engines used to evaluate the scheduler -/

/-- An engine that counts iterations: its state is the pair (iteration, maxIterations), a step
of `n` advances the count by `n`, and it reports finished once the count has reached the
maximum. -/
def countingEngine : Engine (Nat × Nat) where
  construct := fun _ _ _ maxIterations _ _ => (0, maxIterations)
  step := fun a n => Except.ok ((a.1 + n, a.2), [0, 0, 0, 255])
  is_finished := fun a => decide (a.2 ≤ a.1)
  get_iteration := fun a => a.1
  get_accuracy := fun _ => 0
  get_width := fun _ => 1
  get_height := fun _ => 1

/-- An engine whose state is the pair (iteration, finished): a step of a positive count adds
it to the iteration and makes the engine report finished, a step of zero leaves the iteration
and makes the engine report unfinished. -/
def flipEngine : Engine (Nat × Bool) where
  construct := fun _ _ _ _ _ _ => (0, false)
  step := fun a n =>
    if n = 0 then Except.ok ((a.1, false), [0, 0, 0, 255])
    else Except.ok ((a.1 + n, true), [0, 0, 0, 255])
  is_finished := fun a => a.2
  get_iteration := fun a => a.1
  get_accuracy := fun _ => 0
  get_width := fun _ => 1
  get_height := fun _ => 1

/-- An engine whose `step` always throws. -/
def throwingEngine : Engine Unit where
  construct := fun _ _ _ _ _ _ => ()
  step := fun _ _ => Except.error "unreachable executed"
  is_finished := fun _ => false
  get_iteration := fun _ => 0
  get_accuracy := fun _ => 0
  get_width := fun _ => 1
  get_height := fun _ => 1

/-- A one pixel image with the given iteration budget and batch size. -/
def sampleStart (maxIterations batchSize : Nat) : StartData :=
  { pixels := [0, 0, 0, 255], width := 1, height := 1, maxIterations := maxIterations,
    targetAccuracy := 9 / 10, batchSize := batchSize, algorithm := some 0 }

/-- A message of the worker carrying the bitmap `b`. -/
def sampleFrame (b : BitmapRef) : ProgressData :=
  { iteration := 10, accuracy := 1 / 2, bitmap := some b, maxIterations := 100,
    targetAccuracy := 9 / 10 }

/-- A two by two picture. -/
def sampleImage : Image :=
  { width := 2, height := 2, data := List.replicate 16 255 }

/-- Three bitmaps arrive; the first is superseded by the second before any refresh. -/
def sampleEvents : List FrameEvent :=
  [FrameEvent.updateProgress (sampleFrame 1), FrameEvent.updateProgress (sampleFrame 2),
   FrameEvent.animationFrame, FrameEvent.updateProgress (sampleFrame 3)]

/-! ## The scheduler: basic facts -/

section Scheduler

variable {σ : Type} (E : Engine σ)

theorem loopCondition_eq_some {w : Worker σ} {a : σ} :
    loopCondition E w = some a ↔
      w.algorithm = some a ∧ w.running = true ∧ E.is_finished a = false := by
  unfold loopCondition
  cases hw : w.algorithm with
  | none => simp
  | some b =>
    cases hr : w.running <;> cases hf : E.is_finished b <;> simp [hr, hf] <;>
      intro h <;> subst h <;> simp [hf]

theorem loopCondition_eq_none {w : Worker σ} :
    loopCondition E w = none ↔
      ∀ a, w.algorithm = some a → w.running = false ∨ E.is_finished a = true := by
  unfold loopCondition
  cases hw : w.algorithm with
  | none => simp
  | some b =>
    cases hr : w.running <;> cases hf : E.is_finished b <;> simp [hr, hf]

theorem runLoop_nil (w : Worker σ) :
    runLoop E [] w =
      match loopCondition E w with
      | none => runLoopFinal E w
      | some _ => (w, Status.suspended) := by
  rw [runLoop]

theorem runLoop_cons (t : Tick) (rest : List Tick) (w : Worker σ) :
    runLoop E (t :: rest) w =
      match loopCondition E w with
      | none => runLoopFinal E w
      | some a =>
        match runLoopBatch E t.now a w with
        | Except.error e => ({ w with stepLog := w.stepLog ++ [w.batchSize] }, Status.rejected e)
        | Except.ok w1 => runLoop E rest (if t.stop then onmessage E Control.stop w1 else w1) := by
  rw [runLoop]

/-- Induction along a run: a property `P` of the states at the loop head gives a property `Q`
of the result. -/
theorem runLoop_induct (P : Worker σ → Prop) (Q : Worker σ × Status → Prop) (env : List Tick)
    (hfinal : ∀ w, P w → loopCondition E w = none → Q (runLoopFinal E w))
    (hsusp : ∀ w a, P w → loopCondition E w = some a → Q (w, Status.suspended))
    (hrej : ∀ w a t e, t ∈ env → P w → loopCondition E w = some a →
      runLoopBatch E t.now a w = Except.error e →
      Q ({ w with stepLog := w.stepLog ++ [w.batchSize] }, Status.rejected e))
    (hstep : ∀ w a t w1, t ∈ env → P w → loopCondition E w = some a →
      runLoopBatch E t.now a w = Except.ok w1 →
      P (if t.stop then onmessage E Control.stop w1 else w1)) :
    ∀ w, P w → Q (runLoop E env w) := by
  induction env with
  | nil =>
    intro w hw
    rw [runLoop_nil]
    cases hc : loopCondition E w with
    | none => exact hfinal w hw hc
    | some a => exact hsusp w a hw hc
  | cons t rest ih =>
    intro w hw
    cases hc : loopCondition E w with
    | none =>
      rw [runLoop_cons, hc]
      exact hfinal w hw hc
    | some a =>
      cases hb : runLoopBatch E t.now a w with
      | error e =>
        rw [runLoop_cons, hc]
        simp only [hb]
        exact hrej w a t e (List.mem_cons_self _ _) hw hc hb
      | ok w1 =>
        rw [runLoop_cons, hc]
        simp only [hb]
        refine ih (fun w a t e ht => hrej w a t e (List.mem_cons_of_mem _ ht))
          (fun w a t w1 ht => hstep w a t w1 (List.mem_cons_of_mem _ ht)) _ ?_
        exact hstep w a t w1 (List.mem_cons_self _ _) hw hc hb

theorem runLoopBatch_error {now : ℚ} {a : σ} {w : Worker σ} {e : String} :
    runLoopBatch E now a w = Except.error e ↔ E.step a w.batchSize = Except.error e := by
  unfold runLoopBatch
  cases hs : E.step a w.batchSize with
  | error e1 => simp
  | ok r =>
    obtain ⟨a1, px⟩ := r
    simp only []
    split <;> simp

theorem runLoopBatch_ok {now : ℚ} {a : σ} {w w1 : Worker σ}
    (h : runLoopBatch E now a w = Except.ok w1) :
    ∃ a1 pixels, E.step a w.batchSize = Except.ok (a1, pixels) ∧
      w1 = { w with
        algorithm := some a1
        stepLog := w.stepLog ++ [w.batchSize]
        lastUpdateTime := if shouldEmit E now a1 w then now else w.lastUpdateTime
        outbox := if shouldEmit E now a1 w then
            w.outbox ++ [{ msg := batchMessage E a1 pixels w, clock := some now, engine := a1 }]
          else w.outbox } := by
  unfold runLoopBatch at h
  cases hs : E.step a w.batchSize with
  | error e1 => rw [hs] at h; simp at h
  | ok r =>
    obtain ⟨a1, px⟩ := r
    rw [hs] at h
    refine ⟨a1, px, rfl, ?_⟩
    simp only [] at h
    unfold shouldEmit batchMessage
    split at h
    · rename_i hc
      simp only [hc, if_true]
      injection h with h
      exact h.symm
    · rename_i hc
      simp only [hc]
      injection h with h
      simp [← h]

theorem runLoop_not_running (env : List Tick) (w : Worker σ) (h : w.running = false) :
    runLoop E env w = (w, Status.completed) := by
  have hc : loopCondition E w = none := by
    rw [loopCondition_eq_none]
    intro a _
    exact Or.inl h
  have hf : runLoopFinal E w = (w, Status.completed) := by
    unfold runLoopFinal
    cases w.algorithm with
    | none => rfl
    | some a => simp [h]
  cases env with
  | nil => rw [runLoop_nil, hc]; exact hf
  | cons t rest => rw [runLoop_cons, hc]; exact hf

theorem batchMessage_kind (a1 : σ) (pixels : List Nat) (w : Worker σ) :
    (batchMessage E a1 pixels w).kind =
      if E.is_finished a1 then Kind.finished else Kind.progress := by
  unfold batchMessage
  cases E.is_finished a1 <;> simp [Message.kind]

theorem batchMessage_iteration (a1 : σ) (pixels : List Nat) (w : Worker σ) :
    (batchMessage E a1 pixels w).iteration? = some (E.get_iteration a1) := by
  unfold batchMessage
  cases E.is_finished a1 <;> simp [Message.iteration?]

/-- Counting `finished` messages along a run in which no `stop` is handled. -/
theorem finishedCount_runLoop (env : List Tick) (c : Nat)
    (hns : ∀ t ∈ env, t.stop = false) (w : Worker σ) (a : σ)
    (ha : w.algorithm = some a) (hr : w.running = true) (hf : E.is_finished a = false)
    (hc : finishedCount w.outbox = c) :
    (runLoop E env w).2 = Status.completed →
      finishedCount (runLoop E env w).1.outbox = c + 2 := by
  refine runLoop_induct E
    (fun w => w.running = true ∧ ∃ a, w.algorithm = some a ∧
      ((E.is_finished a = false ∧ finishedCount w.outbox = c) ∨
        (E.is_finished a = true ∧ finishedCount w.outbox = c + 1)))
    (fun r => r.2 = Status.completed → finishedCount r.1.outbox = c + 2) env
    ?_ ?_ ?_ ?_ w ⟨hr, a, ha, Or.inl ⟨hf, hc⟩⟩
  · rintro w ⟨hr, a, ha, hcase⟩ hnone
    rw [loopCondition_eq_none] at hnone
    have hfin : E.is_finished a = true := by
      rcases hnone a ha with h | h
      · rw [hr] at h; cases h
      · exact h
    have hcount : finishedCount w.outbox = c + 1 := by
      rcases hcase with ⟨h, _⟩ | ⟨_, h⟩
      · rw [hfin] at h; cases h
      · exact h
    unfold runLoopFinal
    rw [ha]
    simp only [hfin, hr, Bool.and_self, if_true]
    cases E.step a 0 with
    | error e => simp
    | ok r =>
      obtain ⟨a1, px⟩ := r
      intro _
      simp [finishedCount, List.countP_append, Message.kind] at hcount ⊢
      omega
  · intro w a _ _ h
    cases h
  · intro w a t e _ _ _ _ h
    cases h
  · rintro w a t w1 ht ⟨hr, b, hb, hcase⟩ hsome hbatch
    rw [loopCondition_eq_some] at hsome
    obtain ⟨ha, _, hfa⟩ := hsome
    have hba : b = a := by rw [hb] at ha; exact Option.some.inj ha
    subst hba
    have hcount : finishedCount w.outbox = c := by
      rcases hcase with ⟨_, h⟩ | ⟨h, _⟩
      · exact h
      · rw [hfa] at h; cases h
    obtain ⟨a1, px, _, hw1⟩ := runLoopBatch_ok E hbatch
    rw [hns t ht]
    simp only [Bool.false_eq_true, if_false]
    subst hw1
    refine ⟨hr, a1, rfl, ?_⟩
    cases hfin : E.is_finished a1 with
    | true =>
      right
      refine ⟨rfl, ?_⟩
      simp [shouldEmit, hfin, finishedCount, List.countP_append, batchMessage_kind] at hcount ⊢
      omega
    | false =>
      left
      refine ⟨rfl, ?_⟩
      simp only [shouldEmit, hfin, Bool.or_false]
      split
      · simp [finishedCount, List.countP_append, batchMessage_kind, hfin] at hcount ⊢
        exact hcount
      · exact hcount

theorem afterYield_fields (b : Bool) (w : Worker σ) :
    (if b then onmessage E Control.stop w else w).outbox = w.outbox ∧
      (if b then onmessage E Control.stop w else w).lastUpdateTime = w.lastUpdateTime ∧
      (if b then onmessage E Control.stop w else w).algorithm = w.algorithm ∧
      (if b then onmessage E Control.stop w else w).stepLog = w.stepLog := by
  cases b <;> simp [onmessage]

theorem runLoopFinal_outbox (w : Worker σ) :
    (runLoopFinal E w).1.outbox = w.outbox ∨
      ∃ a a1 pixels, w.algorithm = some a ∧ E.is_finished a = true ∧ w.running = true ∧
        E.step a 0 = Except.ok (a1, pixels) ∧ (runLoopFinal E w).2 = Status.completed ∧
        (runLoopFinal E w).1.running = true ∧
        (runLoopFinal E w).1.outbox = w.outbox ++
          [{ msg := Message.finished
              { iteration := E.get_iteration a1, accuracy := E.get_accuracy a1,
                bitmap := { pixels := pixels, width := E.get_width a1,
                            height := E.get_height a1 },
                maxIterations := w.maxIterations, targetAccuracy := w.targetAccuracy },
             clock := none, engine := a1 }] := by
  unfold runLoopFinal
  cases ha : w.algorithm with
  | none => exact Or.inl rfl
  | some a =>
    simp only []
    split
    · rename_i hg
      simp only [Bool.and_eq_true] at hg
      cases hs : E.step a 0 with
      | error e => exact Or.inl rfl
      | ok r =>
        obtain ⟨a1, px⟩ := r
        exact Or.inr ⟨a, a1, px, rfl, hg.1, hg.2, hs, rfl, hg.2, rfl⟩
    · exact Or.inl rfl

theorem lastEmitTime_append (l : List (Sent σ)) (e : Sent σ) :
    lastEmitTime (l ++ [e]) = e.clock.getD 0 := by
  simp [lastEmitTime]

theorem throttled_append {l : List (Sent σ)} {e : Sent σ} (h : Throttled E l)
    (he : (e.msg.kind = Kind.progress ∨
        (e.clock.isSome = true ∧ E.is_finished e.engine = false)) →
      ∃ t, e.clock = some t ∧ lastEmitTime l + UPDATE_INTERVAL ≤ t ∧ UPDATE_INTERVAL ≤ t) :
    Throttled E (l ++ [e]) := by
  intro pre x post hsplit hx
  rcases List.eq_nil_or_concat post with rfl | ⟨post1, y, rfl⟩
  · have h1 := List.append_inj' hsplit rfl
    obtain ⟨hl, hy⟩ := h1
    have hxe : e = x := by simpa using hy
    subst hl
    subst hxe
    exact he hx
  · have h2 : l ++ [e] = (pre ++ x :: post1) ++ [y] := by
      rw [hsplit]; simp
    have h1 := List.append_inj' h2 rfl
    exact h pre x post1 h1.1 hx

/-- The throttle holds along a run that starts with `lastUpdateTime` in step with the posted
messages and not negative. -/
theorem runLoop_throttled (env : List Tick) (w : Worker σ) (h : Throttled E w.outbox)
    (hl : w.lastUpdateTime = lastEmitTime w.outbox) (h0 : 0 ≤ w.lastUpdateTime) :
    Throttled E (runLoop E env w).1.outbox := by
  refine runLoop_induct E
    (fun w => Throttled E w.outbox ∧ w.lastUpdateTime = lastEmitTime w.outbox ∧
      (∀ a, w.algorithm = some a → E.is_finished a = false → 0 ≤ w.lastUpdateTime))
    (fun r => Throttled E r.1.outbox) env ?_ ?_ ?_ ?_ w ⟨h, hl, fun _ _ _ => h0⟩
  · rintro w ⟨h, _⟩ _
    rcases runLoopFinal_outbox E w with h1 | ⟨a, a1, px, _, _, _, _, _, _, h1⟩
    · rw [h1]; exact h
    · rw [h1]
      refine throttled_append E h ?_
      rintro (hk | ⟨hk, _⟩)
      · simp [Message.kind] at hk
      · simp at hk
  · rintro w a ⟨h, _⟩ _
    exact h
  · rintro w a t e _ ⟨h, _⟩ _ _
    exact h
  · rintro w a t w1 _ ⟨h, hl, hpos⟩ hsome hbatch
    rw [loopCondition_eq_some] at hsome
    have hlast : 0 ≤ w.lastUpdateTime := hpos a hsome.1 hsome.2.2
    obtain ⟨h1, h2, h3, _⟩ := afterYield_fields E t.stop w1
    rw [h1, h2, h3]
    obtain ⟨a1, px, _, hw1⟩ := runLoopBatch_ok E hbatch
    subst hw1
    simp only []
    cases hemit : shouldEmit E t.now a1 w with
    | false => exact ⟨h, hl, fun _ _ _ => hlast⟩
    | true =>
      simp only [if_true]
      have hgap : E.is_finished a1 = false → w.lastUpdateTime + UPDATE_INTERVAL ≤ t.now := by
        intro hfin
        simp only [shouldEmit, hfin, Bool.or_false, decide_eq_true_eq] at hemit
        linarith
      refine ⟨throttled_append E h ?_, ?_, ?_⟩
      · intro hcond
        have hfin : E.is_finished a1 = false := by
          rcases hcond with hk | ⟨_, hk⟩
          · rw [batchMessage_kind] at hk
            cases hf : E.is_finished a1
            · rfl
            · rw [hf] at hk; simp at hk
          · exact hk
        have := hgap hfin
        refine ⟨t.now, rfl, ?_, ?_⟩
        · rw [← hl]; exact this
        · linarith
      · rw [lastEmitTime_append]
        rfl
      · intro b hb hfin
        have hba : a1 = b := Option.some.inj hb
        subst hba
        have := hgap hfin
        have h50 : (0 : ℚ) ≤ UPDATE_INTERVAL := by unfold UPDATE_INTERVAL; norm_num
        linarith

/-- The three ways the statement after the loop can go. -/
theorem runLoopFinal_cases (w : Worker σ) :
    (runLoopFinal E w = (w, Status.completed) ∧
        ∀ a, w.algorithm = some a → E.is_finished a = true → w.running = false) ∨
      (∃ a e, w.algorithm = some a ∧ E.is_finished a = true ∧ w.running = true ∧
        E.step a 0 = Except.error e ∧
        runLoopFinal E w = ({ w with stepLog := w.stepLog ++ [0] }, Status.rejected e)) ∨
      (∃ a a1 pixels, w.algorithm = some a ∧ E.is_finished a = true ∧ w.running = true ∧
        E.step a 0 = Except.ok (a1, pixels) ∧
        runLoopFinal E w =
          ({ w with
              algorithm := some a1
              stepLog := w.stepLog ++ [0]
              outbox := w.outbox ++
                [{ msg := Message.finished
                    { iteration := E.get_iteration a1, accuracy := E.get_accuracy a1,
                      bitmap := { pixels := pixels, width := E.get_width a1,
                                  height := E.get_height a1 },
                      maxIterations := w.maxIterations, targetAccuracy := w.targetAccuracy },
                   clock := none, engine := a1 }] },
            Status.completed)) := by
  unfold runLoopFinal
  cases ha : w.algorithm with
  | none => left; simp
  | some a =>
    simp only []
    split
    · rename_i hg
      simp only [Bool.and_eq_true] at hg
      cases hs : E.step a 0 with
      | error e => right; left; exact ⟨a, e, rfl, hg.1, hg.2, hs, rfl⟩
      | ok r =>
        obtain ⟨a1, px⟩ := r
        right; right
        exact ⟨a, a1, px, rfl, hg.1, hg.2, hs, rfl⟩
    · rename_i hg
      left
      refine ⟨rfl, ?_⟩
      intro b hb hf
      have hba : a = b := Option.some.inj hb
      subst hba
      cases hr : w.running
      · rfl
      · exact absurd (by simp [hf, hr]) hg

/-- What a session guarantees about the kinds of its messages, from a loop head state. -/
theorem runLoop_kinds (env : List Tick) (w : Worker σ) (h : LoopHead E w) :
    (∀ e ∈ (runLoop E env w).1.outbox, e.clock.isSome = true →
        e.msg.kind = if E.is_finished e.engine then Kind.finished else Kind.progress) ∧
      ((runLoop E env w).2 = Status.completed → (runLoop E env w).1.running = true →
        ∃ e a pixels, (runLoop E env w).1.outbox.getLast? = some e ∧
          e.msg.kind = Kind.finished ∧ e.clock = none ∧ E.is_finished a = true ∧
          E.step a 0 = Except.ok (e.engine, pixels)) ∧
      ((runLoop E env w).2 = Status.completed → (runLoop E env w).1.running = false →
        (∃ a, (runLoop E env w).1.algorithm = some a ∧ E.is_finished a = true) →
        ∃ e, (runLoop E env w).1.outbox.getLast? = some e ∧ e.msg.kind = Kind.finished ∧
          e.clock.isSome = true ∧ E.is_finished e.engine = true) := by
  refine runLoop_induct E (LoopHead E)
    (fun r =>
      (∀ e ∈ r.1.outbox, e.clock.isSome = true →
        e.msg.kind = if E.is_finished e.engine then Kind.finished else Kind.progress) ∧
      (r.2 = Status.completed → r.1.running = true →
        ∃ e a pixels, r.1.outbox.getLast? = some e ∧
          e.msg.kind = Kind.finished ∧ e.clock = none ∧ E.is_finished a = true ∧
          E.step a 0 = Except.ok (e.engine, pixels)) ∧
      (r.2 = Status.completed → r.1.running = false →
        (∃ a, r.1.algorithm = some a ∧ E.is_finished a = true) →
        ∃ e, r.1.outbox.getLast? = some e ∧ e.msg.kind = Kind.finished ∧
          e.clock.isSome = true ∧ E.is_finished e.engine = true)) env ?_ ?_ ?_ ?_ w h
  · rintro w ⟨⟨a0, ha0⟩, hk, hlast⟩ hnone
    rw [loopCondition_eq_none] at hnone
    rcases runLoopFinal_cases E w with ⟨hres, hguard⟩ | ⟨a, e, _, _, _, _, hres⟩ |
      ⟨a, a1, px, ha, hfin, hrun, hstep, hres⟩
    · rw [hres]
      refine ⟨fun e he _ => (hk e he).2, ?_, ?_⟩
      · intro _ hrun
        exfalso
        rcases hnone a0 ha0 with h1 | h1
        · simp only [] at hrun; rw [hrun] at h1; cases h1
        · have := hguard a0 ha0 h1
          simp only [] at hrun; rw [hrun] at this; cases this
      · rintro _ hrun ⟨a, ha, hfin⟩
        simp only [] at hrun ha
        rcases hlast a ha hfin with ⟨_, h1⟩ | ⟨e, he, hea⟩
        · rw [hrun] at h1; cases h1
        · have hmem := List.mem_of_getLast?_eq_some he
          have h2 := hk e hmem
          refine ⟨e, he, ?_, h2.1, ?_⟩
          · rw [h2.2, hea, hfin]; rfl
          · rw [hea]; exact hfin
    · rw [hres]
      refine ⟨fun e he _ => (hk e he).2, ?_, ?_⟩
      · intro h1; cases h1
      · intro h1; cases h1
    · rw [hres]
      refine ⟨?_, ?_, ?_⟩
      · intro e he hc
        simp only [List.mem_append, List.mem_singleton] at he
        rcases he with he | he
        · exact (hk e he).2
        · subst he; simp at hc
      · intro _ _
        exact ⟨_, a, px, List.getLast?_concat _, rfl, rfl, hfin, hstep⟩
      · intro _ h1
        simp only [] at h1
        rw [hrun] at h1; cases h1
  · rintro w a ⟨_, hk, _⟩ _
    refine ⟨fun e he _ => (hk e he).2, ?_, ?_⟩
    · intro h1; cases h1
    · intro h1; cases h1
  · rintro w a t e _ ⟨_, hk, _⟩ _ _
    refine ⟨fun e he _ => (hk e he).2, ?_, ?_⟩
    · intro h1; cases h1
    · intro h1; cases h1
  · rintro w a t w1 _ ⟨_, hk, _⟩ _ hbatch
    obtain ⟨h1, _, h3, _⟩ := afterYield_fields E t.stop w1
    obtain ⟨a1, px, _, hw1⟩ := runLoopBatch_ok E hbatch
    unfold LoopHead
    rw [h1, h3]
    subst hw1
    simp only []
    refine ⟨⟨a1, rfl⟩, ?_, ?_⟩
    · intro e he
      cases hemit : shouldEmit E t.now a1 w with
      | false =>
        rw [hemit] at he
        exact hk e he
      | true =>
        rw [hemit] at he
        simp only [if_true, List.mem_append, List.mem_singleton] at he
        rcases he with he | he
        · exact hk e he
        · subst he
          exact ⟨rfl, batchMessage_kind E a1 px w⟩
    · intro b hb hfin
      have hba : a1 = b := Option.some.inj hb
      subst hba
      right
      have hemit : shouldEmit E t.now a1 w = true := by simp [shouldEmit, hfin]
      rw [hemit]
      exact ⟨_, List.getLast?_concat _, rfl⟩

/-- The `iteration` values posted along a run are non-decreasing when the iteration count of
the engine never decreases in a step. -/
theorem runLoop_iterations (env : List Tick) (w : Worker σ)
    (hmono : ∀ a n a1 pixels, E.step a n = Except.ok (a1, pixels) →
      E.get_iteration a ≤ E.get_iteration a1)
    (h1 : (iterations w.outbox).Pairwise (fun i j => i ≤ j))
    (h2 : ∀ a, w.algorithm = some a → ∀ i ∈ iterations w.outbox, i ≤ E.get_iteration a) :
    (iterations (runLoop E env w).1.outbox).Pairwise (fun i j => i ≤ j) := by
  refine runLoop_induct E
    (fun w => (iterations w.outbox).Pairwise (fun i j => i ≤ j) ∧
      ∀ a, w.algorithm = some a → ∀ i ∈ iterations w.outbox, i ≤ E.get_iteration a)
    (fun r => (iterations r.1.outbox).Pairwise (fun i j => i ≤ j)) env ?_ ?_ ?_ ?_ w ⟨h1, h2⟩
  · rintro w ⟨h1, h2⟩ _
    rcases runLoopFinal_cases E w with ⟨hres, _⟩ | ⟨a, e, _, _, _, _, hres⟩ |
      ⟨a, a1, px, ha, _, _, hstep, hres⟩
    · rw [hres]; exact h1
    · rw [hres]; exact h1
    · rw [hres]
      simp only [iterations, List.filterMap_append, List.filterMap_cons, List.filterMap_nil,
        Message.iteration?, List.pairwise_append, List.pairwise_singleton, List.mem_singleton,
        true_and]
      refine ⟨h1, ?_⟩
      intro i hi j hj
      subst hj
      exact le_trans (h2 a ha i hi) (hmono a 0 a1 px hstep)
  · rintro w a ⟨h1, _⟩ _
    exact h1
  · rintro w a t e _ ⟨h1, _⟩ _ _
    exact h1
  · rintro w a t w1 _ ⟨h1, h2⟩ hsome hbatch
    rw [loopCondition_eq_some] at hsome
    obtain ⟨g1, _, g3, _⟩ := afterYield_fields E t.stop w1
    obtain ⟨a1, px, hstep, hw1⟩ := runLoopBatch_ok E hbatch
    rw [g1, g3]
    subst hw1
    simp only []
    have hle : ∀ i ∈ iterations w.outbox, i ≤ E.get_iteration a1 := fun i hi =>
      le_trans (h2 a hsome.1 i hi) (hmono a w.batchSize a1 px hstep)
    cases hemit : shouldEmit E t.now a1 w with
    | false =>
      refine ⟨h1, ?_⟩
      intro b hb i hi
      have hba : a1 = b := Option.some.inj hb
      subst hba
      exact hle i hi
    | true =>
      simp only [if_true, iterations, List.filterMap_append, List.filterMap_cons,
        List.filterMap_nil, batchMessage_iteration, List.pairwise_append,
        List.pairwise_singleton, List.mem_singleton, true_and, List.mem_append]
      refine ⟨⟨h1, ?_⟩, ?_⟩
      · intro i hi j hj
        subst hj
        exact hle i hi
      · intro b hb i hi
        have hba : a1 = b := Option.some.inj hb
        subst hba
        rcases hi with hi | hi
        · exact hle i hi
        · rw [hi]

/-- Every message posted along a run is a `progress` or a `finished` message and carries an
`iteration` value. -/
theorem runLoop_posts_iterations (env : List Tick) (w : Worker σ)
    (h : ∀ e ∈ w.outbox, e.msg.iteration?.isSome = true) :
    ∀ e ∈ (runLoop E env w).1.outbox, e.msg.iteration?.isSome = true := by
  refine runLoop_induct E (fun w => ∀ e ∈ w.outbox, e.msg.iteration?.isSome = true)
    (fun r => ∀ e ∈ r.1.outbox, e.msg.iteration?.isSome = true) env ?_ ?_ ?_ ?_ w h
  · intro w h _
    rcases runLoopFinal_outbox E w with h1 | ⟨a, a1, px, _, _, _, _, _, _, h1⟩
    · rw [h1]; exact h
    · rw [h1]
      intro e he
      simp only [List.mem_append, List.mem_singleton] at he
      rcases he with he | he
      · exact h e he
      · subst he; rfl
  · intro w a h _
    exact h
  · intro w a t e _ h _ _
    exact h
  · intro w a t w1 _ h _ hbatch
    obtain ⟨h1, _⟩ := afterYield_fields E t.stop w1
    rw [h1]
    obtain ⟨a1, px, _, hw1⟩ := runLoopBatch_ok E hbatch
    subst hw1
    simp only []
    intro e he
    cases hemit : shouldEmit E t.now a1 w with
    | false =>
      rw [hemit] at he
      exact h e he
    | true =>
      rw [hemit] at he
      simp only [if_true, List.mem_append, List.mem_singleton] at he
      rcases he with he | he
      · exact h e he
      · subst he
        simp [batchMessage_iteration]

theorem iterations_length_of_all (l : List (Sent σ))
    (h : ∀ e ∈ l, e.msg.iteration?.isSome = true) : (iterations l).length = l.length := by
  induction l with
  | nil => rfl
  | cons e l ih =>
    have he := h e (List.mem_cons_self _ _)
    obtain ⟨i, hi⟩ := Option.isSome_iff_exists.mp he
    have hl := ih (fun x hx => h x (List.mem_cons_of_mem _ hx))
    simp only [iterations] at hl ⊢
    simp [List.filterMap_cons, hi, hl]

theorem runLoopBatch_of_step {now : ℚ} {a a1 : σ} {pixels : List Nat} {w : Worker σ}
    (h : E.step a w.batchSize = Except.ok (a1, pixels)) :
    runLoopBatch E now a w = Except.ok
      { w with
        algorithm := some a1
        stepLog := w.stepLog ++ [w.batchSize]
        lastUpdateTime := if shouldEmit E now a1 w then now else w.lastUpdateTime
        outbox := if shouldEmit E now a1 w then
            w.outbox ++ [{ msg := batchMessage E a1 pixels w, clock := some now, engine := a1 }]
          else w.outbox } := by
  cases hb : runLoopBatch E now a w with
  | error e =>
    rw [runLoopBatch_error] at hb
    rw [h] at hb
    cases hb
  | ok w1 =>
    obtain ⟨b1, px, hs, hw1⟩ := runLoopBatch_ok E hb
    rw [h] at hs
    injection hs with hs
    injection hs with h1 h2
    subst h1
    subst h2
    rw [hw1]

theorem start_facts (data : StartData) :
    (onmessage E (Control.start data) (Worker.initial σ)).outbox = [] ∧
      (onmessage E (Control.start data) (Worker.initial σ)).running = true ∧
      (onmessage E (Control.start data) (Worker.initial σ)).lastUpdateTime = 0 ∧
      ∃ a, (onmessage E (Control.start data) (Worker.initial σ)).algorithm = some a := by
  simp [onmessage, Worker.initial]

theorem getElem?_split {α : Type} {l : List α} {i : Nat} {e : α} (h : l[i]? = some e) :
    l = l.take i ++ e :: l.drop (i + 1) := by
  obtain ⟨hi, he⟩ := List.getElem?_eq_some.mp h
  have h1 : l.drop i = l[i] :: l.drop (i + 1) := List.drop_eq_getElem_cons hi
  rw [← he, ← h1, List.take_append_drop]

end Scheduler

/-! ## The page: basic facts -/

section PageFacts

@[simp] theorem closedOf_nil : closedOf [] = [] := rfl

@[simp] theorem drawnOf_nil : drawnOf [] = [] := rfl

@[simp] theorem closedOf_append (l₁ l₂ : List Effect) :
    closedOf (l₁ ++ l₂) = closedOf l₁ ++ closedOf l₂ := by
  simp [closedOf, List.filterMap_append]

@[simp] theorem drawnOf_append (l₁ l₂ : List Effect) :
    drawnOf (l₁ ++ l₂) = drawnOf l₁ ++ drawnOf l₂ := by
  simp [drawnOf, List.filterMap_append]

@[simp] theorem closedOf_flushEffects (p : Option BitmapRef) :
    closedOf (flushEffects p) = p.toList := by
  cases p <;> simp [flushEffects, closedOf]

@[simp] theorem drawnOf_flushEffects (p : Option BitmapRef) :
    drawnOf (flushEffects p) = p.toList := by
  cases p <;> simp [flushEffects, drawnOf]

@[simp] theorem closedOf_close (b : BitmapRef) : closedOf [Effect.close b] = [b] := rfl

@[simp] theorem closedOf_terminate (k : Nat) : closedOf [Effect.terminate k] = [] := rfl

@[simp] theorem closedOf_fillRect (w h : Nat) : closedOf [Effect.fillRect w h] = [] := rfl

@[simp] theorem drawnOf_close (b : BitmapRef) : drawnOf [Effect.close b] = [] := rfl

@[simp] theorem drawnOf_terminate (k : Nat) : drawnOf [Effect.terminate k] = [] := rfl

@[simp] theorem drawnOf_fillRect (w h : Nat) : drawnOf [Effect.fillRect w h] = [] := rfl

/-- The function `stopAlgorithm`, field by field. -/
theorem stopAlgorithm_eq (s : Page) :
    stopAlgorithm s =
      { s with
        isRunning := false
        startBtnDisabled := s.imageData.isNone
        stopBtnDisabled := true
        animationFrameId :=
          match s.animationFrameId with
          | some id => if id ≠ 0 then none else some id
          | none => none
        frameRequests :=
          match s.animationFrameId with
          | some id => if id ≠ 0 then s.frameRequests.filter (fun k => k ≠ id) else s.frameRequests
          | none => s.frameRequests
        pendingBitmap := none
        worker := none
        log := s.log ++ flushEffects s.pendingBitmap ++
          (match s.worker with
            | some k => [Effect.terminate k]
            | none => []) } := by
  unfold stopAlgorithm cancelAnimationFrame flushEffects
  rcases hp : s.pendingBitmap with _ | b <;> rcases hw : s.worker with _ | k <;>
    rcases ha : s.animationFrameId with _ | id
  all_goals first
    | (by_cases h0 : id = 0 <;> simp [hp, hw, ha, h0])
    | simp [hp, hw, ha]

/-- The function `renderLoop`, field by field. -/
theorem renderLoop_eq (s : Page) :
    renderLoop s =
      { s with
        log := s.log ++ flushEffects s.pendingBitmap
        pendingBitmap := none
        frameCounter := if s.isRunning then s.frameCounter + 1 else s.frameCounter
        frameRequests :=
          if s.isRunning then s.frameRequests ++ [s.frameCounter + 1] else s.frameRequests
        animationFrameId :=
          if s.isRunning then some (s.frameCounter + 1) else s.animationFrameId } := by
  unfold renderLoop requestAnimationFrame flushEffects
  obtain ⟨w, im, run, af, pb, sb, tb, st, it, ac, pw, fr, fc, wc, lg⟩ := s
  rcases pb with _ | b <;> rcases run with _ | _ <;> simp

/-- The function `updateProgress`, as far as the frame slot and the log are concerned. -/
theorem updateProgress_slot (data : ProgressData) (s : Page) :
    (updateProgress data s).pendingBitmap =
        (match data.bitmap with
          | some b => some b
          | none => s.pendingBitmap) ∧
      (updateProgress data s).log = s.log ++
        (match data.bitmap, s.pendingBitmap with
          | some _, some old => [Effect.close old]
          | _, _ => []) ∧
      (updateProgress data s).isRunning = s.isRunning ∧
      (updateProgress data s).frameRequests = s.frameRequests ∧
      (updateProgress data s).frameCounter = s.frameCounter ∧
      (updateProgress data s).animationFrameId = s.animationFrameId := by
  unfold updateProgress
  rcases hb : data.bitmap with _ | b <;> rcases hp : s.pendingBitmap with _ | old <;>
    simp [hb, hp]

theorem runPage_cons (ev : PageEvent) (evs : List PageEvent) (s : Page) :
    runPage (ev :: evs) s = runPage evs (ev.apply s) := rfl

theorem runPage_append (evs₁ evs₂ : List PageEvent) (s : Page) :
    runPage (evs₁ ++ evs₂) s = runPage evs₂ (runPage evs₁ s) := by
  simp [runPage, List.foldl_append]

theorem received_append (evs₁ evs₂ : List PageEvent) :
    received (evs₁ ++ evs₂) = received evs₁ ++ received evs₂ := by
  simp [received, List.filterMap_append]

/-- One event keeps the account of the bitmaps: what has been released, followed by the slot
content, is what was there before followed by what the event brought. -/
theorem apply_account (ev : PageEvent) (s : Page) :
    closedOf (ev.apply s).log ++ (ev.apply s).pendingBitmap.toList =
      closedOf s.log ++ s.pendingBitmap.toList ++ received [ev] := by
  cases ev with
  | imageLoaded img => simp [PageEvent.apply, imageOnload, received]
  | startClick =>
    simp only [PageEvent.apply, startClick, requestAnimationFrame]
    cases s.imageData <;> simp [received]
  | updateProgress data =>
    obtain ⟨h1, h2, _⟩ := updateProgress_slot data s
    simp only [PageEvent.apply, h1, h2, received]
    rcases hb : data.bitmap with _ | b <;> rcases hp : s.pendingBitmap with _ | old <;>
      simp [hb, hp]
  | animationFrame =>
    simp only [PageEvent.apply, animationFrame]
    cases s.frameRequests with
    | nil => simp [received]
    | cons k rest => simp [renderLoop_eq, received]
  | stopAlgorithm =>
    simp only [PageEvent.apply, stopAlgorithm_eq]
    cases s.worker <;> simp [received]

theorem runPage_account (evs : List PageEvent) (s : Page) :
    closedOf (runPage evs s).log ++ (runPage evs s).pendingBitmap.toList =
      closedOf s.log ++ s.pendingBitmap.toList ++ received evs := by
  induction evs generalizing s with
  | nil => simp [runPage, received]
  | cons ev evs ih =>
    rw [runPage_cons, ih, apply_account]
    have : received (ev :: evs) = received [ev] ++ received evs :=
      received_append [ev] evs
    rw [this]
    simp

/-- One event keeps every composited bitmap among the released ones, in order. -/
theorem apply_drawn_sublist (ev : PageEvent) (s : Page)
    (h : (drawnOf s.log).Sublist (closedOf s.log)) :
    (drawnOf (ev.apply s).log).Sublist (closedOf (ev.apply s).log) := by
  cases ev with
  | imageLoaded img => simpa [PageEvent.apply, imageOnload] using h
  | startClick =>
    simp only [PageEvent.apply, startClick, requestAnimationFrame]
    cases s.imageData <;> simpa using h
  | updateProgress data =>
    obtain ⟨_, h2, _⟩ := updateProgress_slot data s
    simp only [PageEvent.apply, h2]
    rcases hb : data.bitmap with _ | b <;> rcases hp : s.pendingBitmap with _ | old <;>
      simp <;> first | exact h | exact h.trans (List.sublist_append_left _ _)
  | animationFrame =>
    simp only [PageEvent.apply, animationFrame]
    cases s.frameRequests with
    | nil => exact h
    | cons k rest =>
      simp only [renderLoop_eq, closedOf_append, drawnOf_append, closedOf_flushEffects,
        drawnOf_flushEffects]
      exact h.append (List.Sublist.refl _)
  | stopAlgorithm =>
    simp only [PageEvent.apply, stopAlgorithm_eq, closedOf_append, drawnOf_append,
      closedOf_flushEffects, drawnOf_flushEffects]
    have h1 := h.append (List.Sublist.refl s.pendingBitmap.toList)
    cases s.worker <;> simpa using h1

theorem runPage_drawn_sublist (evs : List PageEvent) (s : Page)
    (h : (drawnOf s.log).Sublist (closedOf s.log)) :
    (drawnOf (runPage evs s).log).Sublist (closedOf (runPage evs s).log) := by
  induction evs generalizing s with
  | nil => exact h
  | cons ev evs ih =>
    rw [runPage_cons]
    exact ih _ (apply_drawn_sublist ev s h)

theorem apply_lastShown (ev : PageEvent) (rcv : List BitmapRef) (s : Page)
    (h : LastShown rcv s) : LastShown (rcv ++ received [ev]) (ev.apply s) := by
  unfold LastShown at h ⊢
  cases ev with
  | imageLoaded img =>
    simp only [PageEvent.apply, imageOnload, received]
    cases hp : s.pendingBitmap <;> simp [hp] at h ⊢ <;> exact h
  | startClick =>
    simp only [PageEvent.apply, startClick, requestAnimationFrame, received]
    cases s.imageData <;> cases hp : s.pendingBitmap <;> simp [hp] at h ⊢ <;> exact h
  | updateProgress data =>
    obtain ⟨h1, h2, _⟩ := updateProgress_slot data s
    simp only [PageEvent.apply, h1, h2, received]
    rcases hb : data.bitmap with _ | b <;> rcases hp : s.pendingBitmap with _ | old <;>
      simp [hb, hp] at h ⊢ <;> exact h
  | animationFrame =>
    simp only [PageEvent.apply, animationFrame, received]
    cases s.frameRequests with
    | nil => simpa using h
    | cons k rest =>
      simp only [renderLoop_eq]
      cases hp : s.pendingBitmap <;> simp [hp, flushEffects, drawnOf] at h ⊢ <;> simp [h]
  | stopAlgorithm =>
    simp only [PageEvent.apply, stopAlgorithm_eq, received]
    cases hp : s.pendingBitmap <;> cases s.worker <;>
      simp [hp, flushEffects, drawnOf] at h ⊢ <;> simp [h]

/-- A bitmap that is neither composited nor in the slot stays so while it is not received. -/
theorem runPage_never_drawn (b : BitmapRef) (evs : List PageEvent) (s : Page)
    (hd : b ∉ drawnOf s.log) (hp : s.pendingBitmap ≠ some b) (hr : b ∉ received evs) :
    b ∉ drawnOf (runPage evs s).log ∧ (runPage evs s).pendingBitmap ≠ some b := by
  induction evs generalizing s with
  | nil => exact ⟨hd, hp⟩
  | cons ev evs ih =>
    rw [runPage_cons]
    have h2 : received (ev :: evs) = received [ev] ++ received evs := received_append [ev] evs
    rw [h2, List.mem_append, not_or] at hr
    refine ih _ ?_ ?_ hr.2
    · cases ev with
      | imageLoaded img => simpa [PageEvent.apply, imageOnload] using hd
      | startClick =>
        simp only [PageEvent.apply, startClick, requestAnimationFrame]
        cases s.imageData <;> simpa using hd
      | updateProgress data =>
        obtain ⟨_, h2, _⟩ := updateProgress_slot data s
        simp only [PageEvent.apply, h2]
        rcases data.bitmap with _ | c <;> rcases s.pendingBitmap with _ | old <;> simpa using hd
      | animationFrame =>
        simp only [PageEvent.apply, animationFrame]
        cases s.frameRequests with
        | nil => exact hd
        | cons k rest =>
          simp only [renderLoop_eq, drawnOf_append, drawnOf_flushEffects, List.mem_append, not_or]
          refine ⟨hd, ?_⟩
          cases hq : s.pendingBitmap with
          | none => simp
          | some c =>
            simp only [Option.toList, List.mem_singleton]
            intro hbc
            exact hp (by rw [hq, hbc])
      | stopAlgorithm =>
        simp only [PageEvent.apply, stopAlgorithm_eq, drawnOf_append, drawnOf_flushEffects,
          List.mem_append, not_or]
        refine ⟨⟨hd, ?_⟩, ?_⟩
        · cases hq : s.pendingBitmap with
          | none => simp
          | some c =>
            simp only [Option.toList, List.mem_singleton]
            intro hbc
            exact hp (by rw [hq, hbc])
        · cases s.worker <;> simp
    · cases ev with
      | imageLoaded img => simpa [PageEvent.apply, imageOnload] using hp
      | startClick =>
        simp only [PageEvent.apply, startClick, requestAnimationFrame]
        cases s.imageData <;> simpa using hp
      | updateProgress data =>
        obtain ⟨h1, _⟩ := updateProgress_slot data s
        simp only [PageEvent.apply, h1]
        rcases hb : data.bitmap with _ | c
        · simpa using hp
        · simp only [received, hb, List.filterMap_cons, List.filterMap_nil, List.mem_singleton]
            at hr
          simp only [ne_eq, Option.some.injEq]
          intro hcb
          exact hr.1 hcb.symm
      | animationFrame =>
        simp only [PageEvent.apply, animationFrame]
        cases s.frameRequests with
        | nil => exact hp
        | cons k rest => simp [renderLoop_eq]
      | stopAlgorithm => simp [PageEvent.apply, stopAlgorithm_eq]

theorem apply_frameSync (ev : FrameEvent) (s : Page) (h : FrameSync s) :
    FrameSync (ev.toPageEvent.apply s) := by
  cases ev with
  | updateProgress data =>
    obtain ⟨_, _, _, g2, _, g4⟩ := updateProgress_slot data s
    simp only [FrameEvent.toPageEvent, PageEvent.apply, FrameSync, g2, g4]
    exact h
  | animationFrame =>
    simp only [FrameEvent.toPageEvent, PageEvent.apply, animationFrame]
    rcases h with h | ⟨k, _, h, _⟩
    · rw [h]
      exact Or.inl h
    · rw [h]
      simp only [renderLoop_eq, FrameSync]
      cases s.isRunning <;> simp

theorem runPage_frameSync (evs : List FrameEvent) (s : Page) (h : FrameSync s) :
    FrameSync (runPage (evs.map FrameEvent.toPageEvent) s) := by
  induction evs generalizing s with
  | nil => exact h
  | cons ev evs ih =>
    rw [List.map_cons, runPage_cons]
    exact ih _ (apply_frameSync ev s h)

theorem stopAlgorithm_frameRequests (s : Page) (h : FrameSync s) :
    (stopAlgorithm s).frameRequests = [] := by
  rw [stopAlgorithm_eq]
  rcases h with h | ⟨k, hk, h, ha⟩
  · simp only [h]
    rcases s.animationFrameId with _ | id
    · rfl
    · by_cases h0 : id = 0 <;> simp [h0]
  · simp [h, ha, hk]

/-- Once a bitmap has been received, the slot and the output surface agree with the bitmaps
received, whatever the state the events started from. -/
theorem runPage_lastShown_of_received (evs : List PageEvent) (s : Page)
    (h : received evs ≠ []) : LastShown (received evs) (runPage evs s) := by
  induction evs using List.reverseRecOn with
  | nil => exact absurd rfl h
  | append_singleton l ev ih =>
    rw [runPage_append, received_append]
    rw [received_append] at h
    by_cases hl : received l = []
    · rw [hl, List.nil_append] at h ⊢
      cases ev with
      | updateProgress data =>
        rcases hb : data.bitmap with _ | b
        · simp [received, hb] at h
        · obtain ⟨h1, _⟩ := updateProgress_slot data (runPage l s)
          rw [hb] at h1
          have h2 : runPage [PageEvent.updateProgress data] (runPage l s) =
              updateProgress data (runPage l s) := rfl
          have h3 : received [PageEvent.updateProgress data] = [b] := by
            simp [received, hb]
          unfold LastShown
          rw [h2, h1, h3]
          rfl
      | imageLoaded img => simp [received] at h
      | startClick => simp [received] at h
      | animationFrame => simp [received] at h
      | stopAlgorithm => simp [received] at h
    · exact apply_lastShown ev _ _ (ih hl)

theorem sessionStart_facts (img : Image) :
    FrameSync (sessionStart img) ∧ (sessionStart img).pendingBitmap = none ∧
      (sessionStart img).log = [Effect.fillRect img.width img.height] := by
  simp [sessionStart, startClick, imageOnload, requestAnimationFrame, Page.initial,
    FrameSync]

theorem append_diff_self (l p : List BitmapRef) : (l ++ p).diff l = p := by
  induction l with
  | nil => simp
  | cons a l ih => simp [List.diff_cons, ih]

theorem updateProgress_progressWidth (data : ProgressData) (s : Page) :
    (updateProgress data s).progressWidth =
      min (max (data.iteration / data.maxIterations) (data.accuracy / data.targetAccuracy) * 100)
        100 := by
  unfold updateProgress
  rcases data.bitmap with _ | b <;> rcases s.pendingBitmap with _ | old <;> rfl

end PageFacts

/-! ## The scheduler: properties of a session -/

section SchedulerClaims

variable {σ : Type} (E : Engine σ)

/-- C1, as the code behaves: in a session whose loop runs at least one batch, in which no `stop`
is handled and which completes, `runLoop` posts two messages of kind `finished` and not one.
The batch after which the engine reports finished posts the first, the statement after the
loop posts the second. -/
theorem finished_posted_twice (data : StartData) (env : List Tick)
    (hbatch : (loopCondition E (onmessage E (Control.start data) (Worker.initial σ))).isSome
      = true)
    (hns : ∀ t ∈ env, t.stop = false)
    (hdone : (session E data env).2 = Status.completed) :
    finishedCount (session E data env).1.outbox = 2 := by
  obtain ⟨h1, _, _, _⟩ := start_facts E data
  obtain ⟨a, ha⟩ := Option.isSome_iff_exists.mp hbatch
  rw [loopCondition_eq_some] at ha
  have h := finishedCount_runLoop E env 0 hns _ a ha.1 ha.2.1 ha.2.2
    (by rw [h1]; rfl) hdone
  simpa using h

/-- The engine that counts to ten in one batch: the session posts `finished` twice. -/
theorem finished_posted_twice_witness :
    finishedCount (session countingEngine (sampleStart 10 10) [⟨60, false⟩]).1.outbox = 2 ∧
      (session countingEngine (sampleStart 10 10) [⟨60, false⟩]).1.outbox.map
        (fun e => (e.msg.kind, e.msg.iteration?)) =
        [(Kind.finished, some 10), (Kind.finished, some 10)] :=
  ⟨finished_posted_twice countingEngine (sampleStart 10 10) [⟨60, false⟩]
      (by simp [loopCondition, onmessage, Worker.initial, countingEngine, sampleStart])
      (by simp)
      (by norm_num [session, runLoop, loopCondition, onmessage, runLoopBatch, runLoopFinal,
        countingEngine, sampleStart, Worker.initial, UPDATE_INTERVAL]),
    by norm_num [session, runLoop, loopCondition, onmessage, runLoopBatch, runLoopFinal,
        countingEngine, sampleStart, Worker.initial, UPDATE_INTERVAL, Message.kind,
        Message.iteration?]⟩

/-- C2, as the code behaves: when `step` throws during a batch, `runLoop` ends with the promise
rejected with the error; it posts nothing, so no `error` message either, and makes no further
`step` call. -/
theorem step_error_posts_nothing (t : Tick) (rest : List Tick) (w : Worker σ) (a : σ)
    (msg : String) (ha : w.algorithm = some a) (hr : w.running = true)
    (hf : E.is_finished a = false) (hs : E.step a w.batchSize = Except.error msg) :
    (runLoop E (t :: rest) w).2 = Status.rejected msg ∧
      (runLoop E (t :: rest) w).1.outbox = w.outbox ∧
      (runLoop E (t :: rest) w).1.stepLog = w.stepLog ++ [w.batchSize] := by
  have hc : loopCondition E w = some a := (loopCondition_eq_some E).mpr ⟨ha, hr, hf⟩
  have hb : runLoopBatch E t.now a w = Except.error msg := (runLoopBatch_error E).mpr hs
  rw [runLoop_cons, hc]
  simp [hb]

/-- A session on the engine whose `step` throws: rejected, nothing posted. -/
theorem step_error_posts_nothing_witness :
    (session throwingEngine (sampleStart 10 10) [⟨60, false⟩, ⟨120, false⟩]).2 =
        Status.rejected "unreachable executed" ∧
      (session throwingEngine (sampleStart 10 10) [⟨60, false⟩, ⟨120, false⟩]).1.outbox = [] ∧
      (session throwingEngine (sampleStart 10 10) [⟨60, false⟩, ⟨120, false⟩]).1.stepLog =
        [10] :=
  step_error_posts_nothing throwingEngine ⟨60, false⟩ [⟨120, false⟩]
    (onmessage throwingEngine (Control.start (sampleStart 10 10)) (Worker.initial Unit)) ()
    "unreachable executed" rfl rfl rfl rfl

/-- C5: handling `stop` sets `running` to false and posts nothing; a loop that resumes in that
state ends at once, whatever the environment offers: it posts nothing, calls `step` no more
and skips the emission after the loop.  When the `stop` is handled during the `await` of a
batch, the rest of the environment has no influence on the run, which is over. -/
theorem stop_ends_run (env : List Tick) (w : Worker σ) (now : ℚ) :
    (onmessage E Control.stop w).running = false ∧
      (onmessage E Control.stop w).outbox = w.outbox ∧
      (onmessage E Control.stop w).stepLog = w.stepLog ∧
      runLoop E env (onmessage E Control.stop w) =
        (onmessage E Control.stop w, Status.completed) ∧
      runLoop E (⟨now, true⟩ :: env) w = runLoop E [⟨now, true⟩] w ∧
      (runLoop E (⟨now, true⟩ :: env) w).2 ≠ Status.suspended := by
  have hstop : ∀ env1 (w1 : Worker σ), runLoop E env1 (onmessage E Control.stop w1) =
      (onmessage E Control.stop w1, Status.completed) := fun env1 w1 =>
    runLoop_not_running E env1 _ rfl
  have hsame : runLoop E (⟨now, true⟩ :: env) w = runLoop E [⟨now, true⟩] w := by
    rw [runLoop_cons, runLoop_cons]
    cases loopCondition E w with
    | none => rfl
    | some a =>
      simp only []
      cases runLoopBatch E now a w with
      | error e => rfl
      | ok w1 => simp only [if_true]; rw [hstop, hstop]
  refine ⟨rfl, rfl, rfl, hstop env w, hsame, ?_⟩
  rw [runLoop_cons]
  cases hc : loopCondition E w with
  | none =>
    simp only []
    rcases runLoopFinal_cases E w with ⟨h, _⟩ | ⟨_, _, _, _, _, _, h⟩ |
      ⟨_, _, _, _, _, _, _, h⟩ <;> rw [h] <;> simp
  | some a =>
    simp only []
    cases runLoopBatch E now a w with
    | error e => simp
    | ok w1 => simp only [if_true]; rw [hstop]; simp

/-- C6: the throttle interval is 50 ms.  A batch posts exactly when `now - lastUpdateTime` has
reached the interval or the engine reports finished, and it sets `lastUpdateTime` to `now`
exactly when it posts.  In a session, whatever the clock readings, a message that is a
`progress` message, or was posted in the loop while the engine did not report finished,
carries a clock reading at least 50 ms after the reading of the message posted before it, and
at least 50 ms after the initial `lastUpdateTime` of 0. -/
theorem throttle_interval :
    UPDATE_INTERVAL = 50 ∧
    (∀ (now : ℚ) (a a1 : σ) (pixels : List Nat) (w : Worker σ),
      E.step a w.batchSize = Except.ok (a1, pixels) →
      ∃ w1, runLoopBatch E now a w = Except.ok w1 ∧
        ((now - w.lastUpdateTime ≥ 50 ∨ E.is_finished a1 = true) →
          w1.outbox = w.outbox ++
            [{ msg := batchMessage E a1 pixels w, clock := some now, engine := a1 }] ∧
          w1.lastUpdateTime = now) ∧
        (¬ (now - w.lastUpdateTime ≥ 50 ∨ E.is_finished a1 = true) →
          w1.outbox = w.outbox ∧ w1.lastUpdateTime = w.lastUpdateTime)) ∧
    (∀ (data : StartData) (env : List Tick) (i : Nat) (e : Sent σ),
      (session E data env).1.outbox[i]? = some e →
      (e.msg.kind = Kind.progress ∨
        (e.clock.isSome = true ∧ E.is_finished e.engine = false)) →
      ∃ t, e.clock = some t ∧
        lastEmitTime ((session E data env).1.outbox.take i) + 50 ≤ t ∧ 50 ≤ t) := by
  refine ⟨rfl, ?_, ?_⟩
  · intro now a a1 pixels w hs
    refine ⟨_, runLoopBatch_of_step E hs, ?_, ?_⟩
    · intro hc
      have : shouldEmit E now a1 w = true := by
        simpa [shouldEmit, UPDATE_INTERVAL] using hc
      simp [this]
    · intro hc
      have : shouldEmit E now a1 w = false := by
        rw [← Bool.not_eq_true]
        simpa [shouldEmit, UPDATE_INTERVAL] using hc
      simp [this]
  · intro data env i e hi hcond
    obtain ⟨h1, _, h3, _⟩ := start_facts E data
    have hthr : Throttled E (session E data env).1.outbox := by
      refine runLoop_throttled E env _ ?_ ?_ ?_
      · rw [h1]
        intro pre x post hsplit
        simp at hsplit
      · rw [h1, h3]; rfl
      · rw [h3]
    have := hthr _ e _ (getElem?_split hi) hcond
    simpa [UPDATE_INTERVAL] using this

/-- A session of three batches at clock readings 60, 70 and 120: the first message is posted
at 60, at least 50 ms after 0. -/
theorem throttle_interval_witness :
    ∃ t, (some (60 : ℚ)) = some t ∧
      lastEmitTime ((session countingEngine (sampleStart 30 10)
        [⟨60, false⟩, ⟨70, false⟩, ⟨120, false⟩]).1.outbox.take 0) + 50 ≤ t ∧ 50 ≤ t :=
  (throttle_interval countingEngine).2.2 (sampleStart 30 10)
    [⟨60, false⟩, ⟨70, false⟩, ⟨120, false⟩] 0
    { msg := Message.progress
        { iteration := 10, accuracy := 0,
          bitmap := { pixels := [0, 0, 0, 255], width := 1, height := 1 },
          maxIterations := 30, targetAccuracy := 9 / 10 },
      clock := some 60, engine := (10, 30) }
    (by norm_num [session, runLoop, loopCondition, onmessage, runLoopBatch, runLoopFinal,
        countingEngine, sampleStart, Worker.initial, UPDATE_INTERVAL])
    (Or.inl rfl)

/-- C7, amended: in a session, every message posted inside the loop has kind `finished` when
the engine reports finished as it is posted and kind `progress` otherwise.  When the session
completes with `running` still true, so that the loop ended because the engine reported
finished, the last message is the one posted after the loop: it has kind `finished`, and the
engine reported finished when the statement after the loop tested it, which is before the call
`step(0)` that precedes the posting; it still reports finished as the message is posted
whenever `step(0)` leaves a finished engine finished.  When the session completes after a
`stop` with the engine finished, the last message was posted in the loop, has kind `finished`,
and the engine reported finished as it was posted. -/
theorem last_message_finished (data : StartData) (env : List Tick) :
    (∀ e ∈ (session E data env).1.outbox, e.clock.isSome = true →
        e.msg.kind = if E.is_finished e.engine then Kind.finished else Kind.progress) ∧
      ((session E data env).2 = Status.completed → (session E data env).1.running = true →
        ∃ e a pixels, (session E data env).1.outbox.getLast? = some e ∧
          e.msg.kind = Kind.finished ∧ e.clock = none ∧ E.is_finished a = true ∧
          E.step a 0 = Except.ok (e.engine, pixels) ∧
          ((∀ b b1 px, E.is_finished b = true → E.step b 0 = Except.ok (b1, px) →
              E.is_finished b1 = true) → E.is_finished e.engine = true)) ∧
      ((session E data env).2 = Status.completed → (session E data env).1.running = false →
        (∃ a, (session E data env).1.algorithm = some a ∧ E.is_finished a = true) →
        ∃ e, (session E data env).1.outbox.getLast? = some e ∧ e.msg.kind = Kind.finished ∧
          e.clock.isSome = true ∧ E.is_finished e.engine = true) := by
  obtain ⟨h1, h2, _, h4⟩ := start_facts E data
  have hhead : LoopHead E (onmessage E (Control.start data) (Worker.initial σ)) := by
    refine ⟨h4, ?_, ?_⟩
    · rw [h1]; intro e he; cases he
    · intro a _ _
      exact Or.inl ⟨h1, h2⟩
  obtain ⟨k1, k2, k3⟩ := runLoop_kinds E env _ hhead
  refine ⟨k1, ?_, k3⟩
  intro hd hr
  obtain ⟨e, a, px, g1, g2, g3, g4, g5⟩ := k2 hd hr
  exact ⟨e, a, px, g1, g2, g3, g4, g5, fun hsticky => hsticky a e.engine px g4 g5⟩

/-- A completed session of three batches on the counting engine, whose `step(0)` leaves a
finished engine finished: the last message is the one posted after the loop, it has kind
`finished`, and the engine reports finished as it is posted. -/
theorem last_message_finished_witness :
    (session countingEngine (sampleStart 30 10)
        [⟨60, false⟩, ⟨70, false⟩, ⟨120, false⟩]).2 = Status.completed ∧
      (session countingEngine (sampleStart 30 10)
        [⟨60, false⟩, ⟨70, false⟩, ⟨120, false⟩]).1.running = true ∧
      (∀ b b1 px, countingEngine.is_finished b = true →
        countingEngine.step b 0 = Except.ok (b1, px) →
        countingEngine.is_finished b1 = true) ∧
      ∃ e, (session countingEngine (sampleStart 30 10)
          [⟨60, false⟩, ⟨70, false⟩, ⟨120, false⟩]).1.outbox.getLast? = some e ∧
        e.msg.kind = Kind.finished ∧ e.clock = none ∧
        countingEngine.is_finished e.engine = true := by
  have hsticky : ∀ (b b1 : Nat × Nat) (px : List Nat), countingEngine.is_finished b = true →
      countingEngine.step b 0 = Except.ok (b1, px) →
      countingEngine.is_finished b1 = true := by
    intro b b1 px hb hs
    simp only [countingEngine, Except.ok.injEq, Prod.mk.injEq, Nat.add_zero] at hs hb ⊢
    rw [← hs.1]
    exact hb
  have hdone : (session countingEngine (sampleStart 30 10)
      [⟨60, false⟩, ⟨70, false⟩, ⟨120, false⟩]).2 = Status.completed := by
    norm_num [session, runLoop, loopCondition, onmessage, runLoopBatch, runLoopFinal,
      countingEngine, sampleStart, Worker.initial, UPDATE_INTERVAL]
  have hrun : (session countingEngine (sampleStart 30 10)
      [⟨60, false⟩, ⟨70, false⟩, ⟨120, false⟩]).1.running = true := by
    norm_num [session, runLoop, loopCondition, onmessage, runLoopBatch, runLoopFinal,
      countingEngine, sampleStart, Worker.initial, UPDATE_INTERVAL]
  obtain ⟨e, _, _, g1, g2, g3, _, _, g6⟩ :=
    (last_message_finished countingEngine (sampleStart 30 10)
      [⟨60, false⟩, ⟨70, false⟩, ⟨120, false⟩]).2.1 hdone hrun
  exact ⟨hdone, hrun, hsticky, e, g1, g2, g3, g6 hsticky⟩

/-- C7 as stated fails: on the engine whose `step(0)` makes it report unfinished, the session
of one batch completes with `running` true, its loop having ended because the engine reported
finished; the last message, posted after the loop, has kind `finished`, and the engine does
not report finished as it is posted. -/
theorem last_message_engine_unfinished :
    (session flipEngine (sampleStart 10 10) [⟨60, false⟩]).2 = Status.completed ∧
      (session flipEngine (sampleStart 10 10) [⟨60, false⟩]).1.running = true ∧
      (session flipEngine (sampleStart 10 10) [⟨60, false⟩]).1.stepLog = [10, 0] ∧
      (session flipEngine (sampleStart 10 10) [⟨60, false⟩]).1.outbox.map
          (fun e => (e.msg.kind, e.clock, flipEngine.is_finished e.engine)) =
        [(Kind.finished, some 60, true), (Kind.finished, none, false)] ∧
      ¬ (∀ e, (session flipEngine (sampleStart 10 10) [⟨60, false⟩]).1.outbox.getLast? = some e →
        e.msg.kind = Kind.finished ∧ flipEngine.is_finished e.engine = true) := by
  have hout : (session flipEngine (sampleStart 10 10) [⟨60, false⟩]).1.outbox =
      [{ msg := Message.finished
            { iteration := 10, accuracy := 0,
              bitmap := { pixels := [0, 0, 0, 255], width := 1, height := 1 },
              maxIterations := 10, targetAccuracy := 9 / 10 },
          clock := some 60, engine := (10, true) },
        { msg := Message.finished
            { iteration := 10, accuracy := 0,
              bitmap := { pixels := [0, 0, 0, 255], width := 1, height := 1 },
              maxIterations := 10, targetAccuracy := 9 / 10 },
          clock := none, engine := (10, false) }] := by
    norm_num [session, runLoop, loopCondition, onmessage, runLoopBatch, runLoopFinal,
      flipEngine, sampleStart, Worker.initial, UPDATE_INTERVAL]
  refine ⟨?_, ?_, ?_, ?_, ?_⟩
  · norm_num [session, runLoop, loopCondition, onmessage, runLoopBatch, runLoopFinal,
      flipEngine, sampleStart, Worker.initial, UPDATE_INTERVAL]
  · norm_num [session, runLoop, loopCondition, onmessage, runLoopBatch, runLoopFinal,
      flipEngine, sampleStart, Worker.initial, UPDATE_INTERVAL]
  · norm_num [session, runLoop, loopCondition, onmessage, runLoopBatch, runLoopFinal,
      flipEngine, sampleStart, Worker.initial, UPDATE_INTERVAL]
  · rw [hout]
    simp [Message.kind, flipEngine]
  · rw [hout]
    intro h
    have h1 := (h _ rfl).2
    simp [flipEngine] at h1

/-- C9: when the iteration count reported by the engine never decreases across a `step` call
(the call `step(0)` after the loop included), the `iteration` values of the messages posted
in a session are non-decreasing in posting order; every posted message carries one. -/
theorem iterations_nondecreasing (data : StartData) (env : List Tick)
    (hmono : ∀ a n a1 pixels, E.step a n = Except.ok (a1, pixels) →
      E.get_iteration a ≤ E.get_iteration a1) :
    (iterations (session E data env).1.outbox).Pairwise (fun i j => i ≤ j) ∧
      (iterations (session E data env).1.outbox).length =
        (session E data env).1.outbox.length := by
  obtain ⟨h1, _, _, _⟩ := start_facts E data
  constructor
  · refine runLoop_iterations E env _ hmono ?_ ?_
    · rw [h1]; exact List.Pairwise.nil
    · rw [h1]; intro a _ i hi; cases hi
  · refine iterations_length_of_all _ (runLoop_posts_iterations E env _ ?_)
    rw [h1]; intro e he; cases he

/-- The counting engine never decreases its count; its session posts 10, 30, 30. -/
theorem iterations_nondecreasing_witness :
    (iterations (session countingEngine (sampleStart 30 10)
      [⟨60, false⟩, ⟨70, false⟩, ⟨120, false⟩]).1.outbox).Pairwise (fun i j => i ≤ j) ∧
    iterations (session countingEngine (sampleStart 30 10)
      [⟨60, false⟩, ⟨70, false⟩, ⟨120, false⟩]).1.outbox = [10, 30, 30] :=
  ⟨(iterations_nondecreasing countingEngine (sampleStart 30 10)
      [⟨60, false⟩, ⟨70, false⟩, ⟨120, false⟩]
      (by
        intro a n a1 pixels h
        simp only [countingEngine, Except.ok.injEq, Prod.mk.injEq] at h
        rw [← h.1]
        exact Nat.le_add_right _ _)).1,
    by
      norm_num [session, runLoop, loopCondition, onmessage, runLoopBatch, runLoopFinal,
        countingEngine, sampleStart, Worker.initial, UPDATE_INTERVAL, iterations]
      rfl⟩

end SchedulerClaims

/-! ## The page: properties of the render synchronizer -/

section PageClaims

/-- C3: for iteration ≥ 0, maxIterations > 0, accuracy in [0, 1] and targetAccuracy in (0, 1],
the percentage that `updateProgress` writes to the progress bar is
clamp(max(iteration / maxIterations, accuracy / targetAccuracy), 0, 1) × 100; it lies in
[0, 100]; it is 100 as soon as one of the two ratios reaches 1; and for iteration 25000,
maxIterations 50000, accuracy 0.5 and targetAccuracy 0.9 it is 500/9. -/
theorem progress_percentage (data : ProgressData) (s : Page)
    (hi : 0 ≤ data.iteration) (hm : 0 < data.maxIterations)
    (_ha0 : 0 ≤ data.accuracy) (_ha1 : data.accuracy ≤ 1)
    (_ht0 : 0 < data.targetAccuracy) (_ht1 : data.targetAccuracy ≤ 1) :
    (updateProgress data s).progressWidth =
        specProgress data.iteration data.maxIterations data.accuracy data.targetAccuracy ∧
      0 ≤ (updateProgress data s).progressWidth ∧
      (updateProgress data s).progressWidth ≤ 100 ∧
      (1 ≤ data.iteration / data.maxIterations ∨ 1 ≤ data.accuracy / data.targetAccuracy →
        (updateProgress data s).progressWidth = 100) ∧
      (updateProgress
        { iteration := 25000, accuracy := 1 / 2, bitmap := data.bitmap, maxIterations := 50000,
          targetAccuracy := 9 / 10 } s).progressWidth = 500 / 9 := by
  have hx : 0 ≤ max (data.iteration / data.maxIterations)
      (data.accuracy / data.targetAccuracy) :=
    le_max_of_le_left (div_nonneg hi hm.le)
  refine ⟨?_, ?_, ?_, ?_, ?_⟩
  · rw [updateProgress_progressWidth, specProgress]
    rcases le_total (max (data.iteration / data.maxIterations)
        (data.accuracy / data.targetAccuracy)) 1 with h | h
    · rw [min_eq_left h, max_eq_right hx, min_eq_left (by linarith)]
    · rw [min_eq_right h, max_eq_right (show (0 : ℚ) ≤ 1 by norm_num),
        min_eq_right (by linarith)]
      norm_num
  · rw [updateProgress_progressWidth]
    exact le_min (by positivity) (by norm_num)
  · rw [updateProgress_progressWidth]
    exact min_le_right _ _
  · intro h
    rw [updateProgress_progressWidth]
    have h1 : 1 ≤ max (data.iteration / data.maxIterations)
        (data.accuracy / data.targetAccuracy) := by
      rcases h with h | h
      · exact le_max_of_le_left h
      · exact le_max_of_le_right h
    exact min_eq_right (by linarith)
  · rw [updateProgress_progressWidth]
    norm_num [max_def, min_def]

/-- The example of the design: halfway through the iterations at accuracy 0.5 of 0.9. -/
theorem progress_percentage_witness :
    (updateProgress
      { iteration := 25000, accuracy := 1 / 2, bitmap := some 7, maxIterations := 50000,
        targetAccuracy := 9 / 10 } Page.initial).progressWidth = 500 / 9 :=
  (progress_percentage
    { iteration := 25000, accuracy := 1 / 2, bitmap := some 7, maxIterations := 50000,
      targetAccuracy := 9 / 10 } Page.initial
    (by norm_num) (by norm_num) (by norm_num) (by norm_num) (by norm_num)
    (by norm_num)).2.2.2.2

/-- C4: in every state the page reaches from its initial state by picture loads, start clicks,
`updateProgress` calls, display refreshes and `stopAlgorithm` calls, the bitmaps received are
those released followed by the content of the `pendingBitmap` slot; so the bitmaps received
and not yet released are at most one, and when there is one it is the content of the slot. -/
theorem one_pending_frame (evs : List PageEvent) :
    received evs = closedOf (runPage evs Page.initial).log ++
        (runPage evs Page.initial).pendingBitmap.toList ∧
      (received evs).diff (closedOf (runPage evs Page.initial).log) =
        (runPage evs Page.initial).pendingBitmap.toList ∧
      ((received evs).diff (closedOf (runPage evs Page.initial).log)).length ≤ 1 := by
  have h := runPage_account evs Page.initial
  have h0 : closedOf Page.initial.log ++ Page.initial.pendingBitmap.toList = [] := rfl
  rw [h0, List.nil_append] at h
  refine ⟨h.symm, ?_, ?_⟩
  · rw [← h, append_diff_self]
  · rw [← h, append_diff_self]
    cases (runPage evs Page.initial).pendingBitmap <;> simp

/-- C8: take any state of the page in which the refresh bookkeeping is in step (at most one
callback requested, the one kept in `animationFrameId`), any sequence of `updateProgress`
calls and display refreshes from it, and then `stopAlgorithm`.  Afterwards the slot is empty,
`isRunning` is false, no refresh callback is requested and the worker handle is null; and
when a bitmap was received, the last bitmap composited is the last bitmap received. -/
theorem stop_flushes_last_frame (s : Page) (evs : List FrameEvent) (hsync : FrameSync s) :
    (stopAlgorithm (runPage (evs.map FrameEvent.toPageEvent) s)).pendingBitmap = none ∧
      (stopAlgorithm (runPage (evs.map FrameEvent.toPageEvent) s)).isRunning = false ∧
      (stopAlgorithm (runPage (evs.map FrameEvent.toPageEvent) s)).frameRequests = [] ∧
      (stopAlgorithm (runPage (evs.map FrameEvent.toPageEvent) s)).worker = none ∧
      (received (evs.map FrameEvent.toPageEvent) ≠ [] →
        (drawnOf (stopAlgorithm (runPage (evs.map FrameEvent.toPageEvent) s)).log).getLast? =
          (received (evs.map FrameEvent.toPageEvent)).getLast?) := by
  have hnone :
      (stopAlgorithm (runPage (evs.map FrameEvent.toPageEvent) s)).pendingBitmap = none := by
    simp [stopAlgorithm_eq]
  refine ⟨hnone, ?_, ?_, ?_, ?_⟩
  · simp [stopAlgorithm_eq]
  · exact stopAlgorithm_frameRequests _ (runPage_frameSync evs s hsync)
  · simp [stopAlgorithm_eq]
  · intro hne
    have h1 := runPage_lastShown_of_received (evs.map FrameEvent.toPageEvent) s hne
    have h2 := apply_lastShown PageEvent.stopAlgorithm _ _ h1
    have h3 : received [PageEvent.stopAlgorithm] = [] := rfl
    rw [h3, List.append_nil] at h2
    unfold LastShown at h2
    simp only [PageEvent.apply] at h2
    rw [hnone] at h2
    rcases h2 with h | h
    · exact absurd h hne
    · exact h

/-- The page after a start click; three bitmaps arrive, the last one is not refreshed before
the stop: it is the last composited, and no refresh callback stays requested. -/
theorem stop_flushes_last_frame_witness :
    FrameSync (sessionStart sampleImage) ∧
      received (sampleEvents.map FrameEvent.toPageEvent) ≠ [] ∧
      (sessionEnd sampleImage sampleEvents).frameRequests = [] ∧
      (drawnOf (sessionEnd sampleImage sampleEvents).log).getLast? =
        (received (sampleEvents.map FrameEvent.toPageEvent)).getLast? :=
  ⟨(sessionStart_facts sampleImage).1, by decide,
    (stop_flushes_last_frame (sessionStart sampleImage) sampleEvents
      (sessionStart_facts sampleImage).1).2.2.1,
    (stop_flushes_last_frame (sessionStart sampleImage) sampleEvents
      (sessionStart_facts sampleImage).1).2.2.2.2 (by decide)⟩

/-- C10: take any state of the page with an empty slot in which nothing has been released or
composited yet, any sequence of `updateProgress` calls and display refreshes from it in which
the bitmaps received are pairwise distinct, and then `stopAlgorithm`.  Afterwards the bitmaps
released are exactly the bitmaps received, in the order received: each received bitmap is
released once, none is left unreleased and none is released twice.  The bitmaps composited
are among them, in order.  A bitmap that is in the slot when the next one arrives is released
by that very `updateProgress` call, which stores the new one, and it is never composited. -/
theorem every_bitmap_released_once (s : Page) (evs : List FrameEvent)
    (hslot : s.pendingBitmap = none) (hclosed0 : closedOf s.log = [])
    (hdrawn0 : drawnOf s.log = [])
    (hd : (received (evs.map FrameEvent.toPageEvent)).Nodup) :
    closedOf (stopAlgorithm (runPage (evs.map FrameEvent.toPageEvent) s)).log =
        received (evs.map FrameEvent.toPageEvent) ∧
      (∀ b ∈ received (evs.map FrameEvent.toPageEvent),
        (closedOf (stopAlgorithm (runPage (evs.map FrameEvent.toPageEvent) s)).log).count b
          = 1) ∧
      (drawnOf (stopAlgorithm (runPage (evs.map FrameEvent.toPageEvent) s)).log).Sublist
        (received (evs.map FrameEvent.toPageEvent)) ∧
      (∀ pre data post b b1, evs = pre ++ FrameEvent.updateProgress data :: post →
        data.bitmap = some b1 →
        (runPage (pre.map FrameEvent.toPageEvent) s).pendingBitmap = some b →
        closedOf (updateProgress data (runPage (pre.map FrameEvent.toPageEvent) s)).log =
          closedOf (runPage (pre.map FrameEvent.toPageEvent) s).log ++ [b] ∧
        (updateProgress data (runPage (pre.map FrameEvent.toPageEvent) s)).pendingBitmap =
          some b1 ∧
        b ∉ drawnOf (stopAlgorithm (runPage (evs.map FrameEvent.toPageEvent) s)).log) := by
  have hacc : ∀ l : List PageEvent,
      closedOf (runPage l s).log ++ (runPage l s).pendingBitmap.toList = received l := by
    intro l
    have h := runPage_account l s
    rw [hslot, hclosed0] at h
    simpa using h
  have hsub0 : (drawnOf s.log).Sublist (closedOf s.log) := by
    rw [hdrawn0, hclosed0]
  have hend : stopAlgorithm (runPage (evs.map FrameEvent.toPageEvent) s) =
      runPage (evs.map FrameEvent.toPageEvent ++ [PageEvent.stopAlgorithm]) s := by
    rw [runPage_append]; rfl
  have hclosed : closedOf (stopAlgorithm (runPage (evs.map FrameEvent.toPageEvent) s)).log =
      received (evs.map FrameEvent.toPageEvent) := by
    have h := hacc (evs.map FrameEvent.toPageEvent ++ [PageEvent.stopAlgorithm])
    rw [← hend, received_append] at h
    have hnone :
        (stopAlgorithm (runPage (evs.map FrameEvent.toPageEvent) s)).pendingBitmap = none := by
      simp [stopAlgorithm_eq]
    rw [hnone] at h
    simpa [received] using h
  refine ⟨hclosed, ?_, ?_, ?_⟩
  · intro b hb
    rw [hclosed]
    exact List.count_eq_one_of_mem hd hb
  · rw [← hclosed, hend]
    exact runPage_drawn_sublist _ _ hsub0
  · intro pre data post b b1 hsplit hb1 hpending
    obtain ⟨u1, u2, _⟩ := updateProgress_slot data (runPage (pre.map FrameEvent.toPageEvent) s)
    rw [hb1] at u1
    rw [hb1, hpending] at u2
    refine ⟨by rw [u2]; simp, u1, ?_⟩
    have hpre := hacc (pre.map FrameEvent.toPageEvent)
    rw [hpending] at hpre
    have hev : evs.map FrameEvent.toPageEvent =
        pre.map FrameEvent.toPageEvent ++
          (PageEvent.updateProgress data :: post.map FrameEvent.toPageEvent) := by
      rw [hsplit]; simp [FrameEvent.toPageEvent]
    have hrcv : received (evs.map FrameEvent.toPageEvent) =
        received (pre.map FrameEvent.toPageEvent) ++
          (b1 :: received (post.map FrameEvent.toPageEvent)) := by
      rw [hev, received_append]
      have : received (PageEvent.updateProgress data :: post.map FrameEvent.toPageEvent) =
          received [PageEvent.updateProgress data] ++
            received (post.map FrameEvent.toPageEvent) := received_append [_] _
      rw [this]
      simp [received, hb1]
    rw [hrcv, ← hpre] at hd
    have hmem : b ∈ closedOf (runPage (pre.map FrameEvent.toPageEvent) s).log ++
        (some b).toList := by simp
    obtain ⟨hd1, _, hdisj⟩ := List.nodup_append.mp hd
    have hnotclosed : b ∉ closedOf (runPage (pre.map FrameEvent.toPageEvent) s).log := by
      intro hc
      exact (List.nodup_append.mp hd1).2.2 hc (by simp : b ∈ (some b).toList)
    have hnotdrawn : b ∉ drawnOf (runPage (pre.map FrameEvent.toPageEvent) s).log := fun hc =>
      hnotclosed ((runPage_drawn_sublist _ _ hsub0).subset hc)
    have hnotlater : b ∉ b1 :: received (post.map FrameEvent.toPageEvent) := fun hc =>
      hdisj hmem hc
    have hfinal : stopAlgorithm (runPage (evs.map FrameEvent.toPageEvent) s) =
        runPage (post.map FrameEvent.toPageEvent ++ [PageEvent.stopAlgorithm])
          (updateProgress data (runPage (pre.map FrameEvent.toPageEvent) s)) := by
      rw [hend, hev, List.append_assoc, runPage_append]
      rfl
    rw [hfinal]
    refine (runPage_never_drawn b _ _ ?_ ?_ ?_).1
    · rw [u2]
      simpa using hnotdrawn
    · rw [u1]
      intro hc
      have hbb : b1 = b := Option.some.inj hc
      exact hnotlater (by rw [hbb]; exact List.mem_cons_self _ _)
    · rw [received_append]
      intro hc
      have hc1 : b ∈ received (post.map FrameEvent.toPageEvent) := by
        simpa [received] using hc
      exact hnotlater (List.mem_cons_of_mem _ hc1)

/-- The page after a start click; three distinct bitmaps arrive, the first is superseded: all
three are released, in order, and only the second and the third are composited. -/
theorem every_bitmap_released_once_witness :
    (received (sampleEvents.map FrameEvent.toPageEvent)).Nodup ∧
      closedOf (sessionEnd sampleImage sampleEvents).log =
        received (sampleEvents.map FrameEvent.toPageEvent) ∧
      received (sampleEvents.map FrameEvent.toPageEvent) = [1, 2, 3] ∧
      drawnOf (sessionEnd sampleImage sampleEvents).log = [2, 3] :=
  ⟨by decide,
    (every_bitmap_released_once (sessionStart sampleImage) sampleEvents
      (sessionStart_facts sampleImage).2.1
      (by rw [(sessionStart_facts sampleImage).2.2]; rfl)
      (by rw [(sessionStart_facts sampleImage).2.2]; rfl) (by decide)).1,
    by decide,
    by simp [sessionEnd, sampleEvents, sampleFrame, sampleImage, sessionStart, runPage,
      PageEvent.apply, FrameEvent.toPageEvent, stopAlgorithm_eq, updateProgress, animationFrame,
      renderLoop_eq, startClick, imageOnload, requestAnimationFrame, Page.initial,
      flushEffects, drawnOf]⟩

end PageClaims

end ApproxImageGen
